import Mathlib

set_option autoImplicit false

/-!
Shallow embedding of the Polymarket data scripts
(`fetch_and_populate.py`, `search_event_db.py`, `database_schema.py`,
`polymarket_events_periodic_updatas.py`).

JSON / Python values are modelled by `PyVal`; numbers are modelled by `Int`
(floating point width and rounding are irrelevant to the verified claims).
Raw API records (Python dicts) are association lists from key strings to
`PyVal`.  Fallible Python code (a `float(...)` call that can raise, the
database population routine that can roll back and re-raise) is modelled
with `Except`.  External collaborators (the HTTP stack, the SQL engine,
the standard library datetime parser) are modelled at the boundary exactly
where the scripts consume them.
-/

/-- A Python/JSON value as it appears in the Gamma API payloads. -/
inductive PyVal where
  | none
  | bool (b : Bool)
  | int (n : Int)
  | str (s : List Char)
  | list (xs : List PyVal)
  | dict (fields : List (List Char × PyVal))

/-- A raw API record: a Python dict with string keys. -/
abbrev RawDict := List (List Char × PyVal)

/-- A Python exception, carried as its message. -/
abbrev PyErr := List Char

/-- Lookup of a key in a Python dict (first binding wins, as dict keys are
unique); `none` models a missing key. -/
def dictFind : RawDict → List Char → Option PyVal
  | [], _ => Option.none
  | (k2, v) :: rest, k => if k2 = k then some v else dictFind rest k

/-- Python `d.get(k, dflt)`: the stored value when the key is present
(even when that value is `None`), the default otherwise. -/
def dictGet (d : RawDict) (k : List Char) (dflt : PyVal) : PyVal :=
  (dictFind d k).getD dflt

/-- Python `d.get(k)` (default `None`). -/
def dictGetN (d : RawDict) (k : List Char) : PyVal :=
  dictGet d k PyVal.none

/-- Decimal digits of a natural number, as characters. -/
def natChars (n : Nat) : List Char := Nat.toDigits 10 n

/-- Python `str(...)` on the scalar values that the scripts feed it.
Containers are rendered as opaque markers: no claim evaluates `str` on a
container. -/
def pyStr : PyVal → List Char
  | PyVal.none => "None".data
  | PyVal.bool true => "True".data
  | PyVal.bool false => "False".data
  | PyVal.int n => if n < 0 then '-' :: natChars n.natAbs else natChars n.natAbs
  | PyVal.str s => s
  | PyVal.list _ => "<list>".data
  | PyVal.dict _ => "<dict>".data

/-- Value of a decimal digit character. -/
def digitVal (c : Char) : Option Nat :=
  if c.isDigit then some (c.toNat - 48) else Option.none

/-- Natural number denoted by a nonempty all-digit character list. -/
def digitsToNat : List Char → Option Nat
  | [] => Option.none
  | [c] => digitVal c
  | c :: rest =>
    match digitVal c, digitsToNat rest with
    | some d, some n => some (d * 10 ^ rest.length + n)
    | _, _ => Option.none

/-- Integer denoted by an optionally signed decimal string. -/
def parseIntChars : List Char → Option Int
  | '-' :: rest => (digitsToNat rest).map (fun n => -(n : Int))
  | s => (digitsToNat s).map Int.ofNat

/-- Python `float(...)` as used by `create_market_from_api`: numbers and
booleans convert, decimal strings parse, while `None` and containers raise
(`TypeError`), as does a non-numeric string (`ValueError`).  Fractional
syntax in strings is not modelled; no claim depends on it. -/
def pyFloat : PyVal → Except PyErr Int
  | PyVal.int n => Except.ok n
  | PyVal.bool b => Except.ok (if b then 1 else 0)
  | PyVal.str s =>
    match parseIntChars s with
    | some n => Except.ok n
    | Option.none => Except.error ("ValueError: could not convert string to float".data)
  | PyVal.none => Except.error ("TypeError: float argument must be a string or a real number, not NoneType".data)
  | PyVal.list _ => Except.error ("TypeError: float argument must be a string or a real number, not list".data)
  | PyVal.dict _ => Except.error ("TypeError: float argument must be a string or a real number, not dict".data)

/-- Python truthiness of the values that occur in the scripts. -/
def pyTruthy : PyVal → Bool
  | PyVal.none => false
  | PyVal.bool b => b
  | PyVal.int n => n ≠ 0
  | PyVal.str s => s ≠ []
  | PyVal.list [] => false
  | PyVal.list (_ :: _) => true
  | PyVal.dict [] => false
  | PyVal.dict (_ :: _) => true

/-- A Python `datetime` value: calendar fields plus an optional fixed
timezone offset in minutes (`none` models a naive datetime). -/
structure PyDateTime where
  year : Nat
  month : Nat
  day : Nat
  hour : Nat
  minute : Nat
  second : Nat
  tz_offset_minutes : Option Int

/-- Read exactly two decimal digits. -/
def parse2 : List Char → Option (Nat × List Char)
  | a :: b :: rest =>
    match digitVal a, digitVal b with
    | some x, some y => some (10 * x + y, rest)
    | _, _ => Option.none
  | _ => Option.none

/-- Read exactly four decimal digits. -/
def parse4 : List Char → Option (Nat × List Char)
  | a :: b :: c :: d :: rest =>
    match digitVal a, digitVal b, digitVal c, digitVal d with
    | some w, some x, some y, some z => some (1000 * w + 100 * x + 10 * y + z, rest)
    | _, _, _, _ => Option.none
  | _ => Option.none

/-- Require a literal character. -/
def expectChar (c : Char) : List Char → Option (List Char)
  | x :: rest => if x = c then some rest else Option.none
  | [] => Option.none

/-- Read an optional `±HH:MM` UTC-offset suffix; the whole input must be
consumed. -/
def parseOffset : List Char → Option (Option Int)
  | [] => some Option.none
  | '+' :: rest =>
    match parse2 rest with
    | some (h, r1) =>
      match expectChar ':' r1 with
      | some r2 =>
        match parse2 r2 with
        | some (m, r3) =>
          if r3 = [] ∧ h ≤ 23 ∧ m ≤ 59 then some (some ((h : Int) * 60 + m)) else Option.none
        | Option.none => Option.none
      | Option.none => Option.none
    | Option.none => Option.none
  | '-' :: rest =>
    match parse2 rest with
    | some (h, r1) =>
      match expectChar ':' r1 with
      | some r2 =>
        match parse2 r2 with
        | some (m, r3) =>
          if r3 = [] ∧ h ≤ 23 ∧ m ≤ 59 then some (some (-((h : Int) * 60 + m))) else Option.none
        | Option.none => Option.none
      | Option.none => Option.none
    | Option.none => Option.none
  | _ => Option.none

/-- Gregorian leap year. -/
def isLeap (y : Nat) : Bool :=
  (y % 4 = 0 && y % 100 ≠ 0) || y % 400 = 0

/-- Days in a month. -/
def daysInMonth (y m : Nat) : Nat :=
  if m = 2 then (if isLeap y then 29 else 28)
  else if m = 4 ∨ m = 6 ∨ m = 9 ∨ m = 11 then 30
  else 31

/-- Modelled from the spec: Python standard library
`datetime.fromisoformat` (not part of this repository), restricted to the
basic ISO-8601 shapes the API emits: `YYYY-MM-DD` optionally followed by
`THH:MM:SS` and an optional `±HH:MM` offset.  Failure (`None` here) models
the `ValueError` the library raises on any other input. -/
def fromisoformat (s : List Char) : Option PyDateTime :=
  match parse4 s with
  | Option.none => Option.none
  | some (y, r1) =>
    match expectChar '-' r1 with
    | Option.none => Option.none
    | some r2 =>
      match parse2 r2 with
      | Option.none => Option.none
      | some (mo, r3) =>
        match expectChar '-' r3 with
        | Option.none => Option.none
        | some r4 =>
          match parse2 r4 with
          | Option.none => Option.none
          | some (d, r5) =>
            if 1 ≤ mo ∧ mo ≤ 12 ∧ 1 ≤ d ∧ d ≤ daysInMonth y mo then
              match r5 with
              | [] => some ⟨y, mo, d, 0, 0, 0, Option.none⟩
              | 'T' :: r6 =>
                match parse2 r6 with
                | Option.none => Option.none
                | some (h, r7) =>
                  match expectChar ':' r7 with
                  | Option.none => Option.none
                  | some r8 =>
                    match parse2 r8 with
                    | Option.none => Option.none
                    | some (mi, r9) =>
                      match expectChar ':' r9 with
                      | Option.none => Option.none
                      | some r10 =>
                        match parse2 r10 with
                        | Option.none => Option.none
                        | some (se, r11) =>
                          if h ≤ 23 ∧ mi ≤ 59 ∧ se ≤ 59 then
                            match parseOffset r11 with
                            | Option.none => Option.none
                            | some off => some ⟨y, mo, d, h, mi, se, off⟩
                          else Option.none
              | _ => Option.none
            else Option.none

/-- Python `date_string.replace('Z', '+00:00')`: every `Z` character is
replaced by the six characters `+00:00`. -/
def replaceZ : List Char → List Char
  | [] => []
  | c :: rest =>
    if c = 'Z' then '+' :: '0' :: '0' :: ':' :: '0' :: '0' :: replaceZ rest
    else c :: replaceZ rest

/-- `parse_datetime` from `fetch_and_populate.py`: falsy input (`None`,
empty string, and the other falsy values) returns `None`; a nonempty
string has `Z` replaced by `+00:00` and is handed to `fromisoformat`, any
parse failure being swallowed by the bare `except` into `None`; a truthy
non-string raises `AttributeError` inside the `try` and likewise returns
`None`. -/
def parse_datetime (v : PyVal) : Option PyDateTime :=
  match v with
  | PyVal.str (c :: cs) => fromisoformat (replaceZ (c :: cs))
  | _ => Option.none

/-- An HTTP response as consumed by `fetch_active_events`: the status code
and the JSON array the body parses to.  The HTTP stack itself is an
external collaborator. -/
structure HttpResponse where
  status_code : Nat
  body : List PyVal

/-- `fetch_active_events` from `fetch_and_populate.py`, given the response
the HTTP GET produced: the parsed JSON array on status 200, otherwise an
empty list (after logging). -/
def fetch_active_events (response : HttpResponse) : List PyVal :=
  if response.status_code = 200 then response.body else []

/-- Python truthiness of the `max_events` argument (`None` or an int). -/
def maxTruthy : Option Nat → Bool
  | Option.none => false
  | some n => n ≠ 0

/-- The `while True` pagination loop of `fetch_all_active_events`.
`pages` lists the successive values returned by `fetch_active_events` for
offsets `0, 100, 200, ...`; past the end of `pages` the API returns an
empty page. -/
def fetch_all_go (limit : Nat) (max_events : Option Nat) :
    List (List PyVal) → List PyVal → List PyVal
  | [], acc => acc
  | page :: rest, acc =>
    if page.isEmpty then acc
    else
      let acc' := acc ++ page
      if page.length < limit then acc'
      else if maxTruthy max_events ∧ (max_events.getD 0) ≤ acc'.length then
        acc'.take (max_events.getD 0)
      else fetch_all_go limit max_events rest acc'

/-- `fetch_all_active_events` from `fetch_and_populate.py`: paginate with
page size 100 starting from an empty accumulator. -/
def fetch_all_active_events (pages : List (List PyVal)) (max_events : Option Nat) : List PyVal :=
  fetch_all_go 100 max_events pages []

/-- The mapped attributes of an `Event` row (`database_schema.py`), holding
exactly the values `create_event_from_api` assigns.  Pass-through fields
keep the raw `PyVal` (this is what SQLAlchemy receives); datetime fields
hold the `parse_datetime` result. -/
structure Event where
  id : List Char
  slug : PyVal
  ticker : PyVal
  title : PyVal
  description : PyVal
  active : PyVal
  closed : PyVal
  archived : PyVal
  restricted : PyVal
  featured : PyVal
  created_at : Option PyDateTime
  updated_at : Option PyDateTime
  start_time : Option PyDateTime
  end_date : Option PyDateTime
  icon : PyVal
  image : PyVal
  resolution_source : PyVal
  liquidity : PyVal
  liquidity_amm : PyVal
  liquidity_clob : PyVal
  open_interest : PyVal
  volume : PyVal
  volume_24hr : PyVal
  volume_1wk : PyVal
  volume_1mo : PyVal
  volume_1yr : PyVal
  cyom : PyVal
  competitive : PyVal
  comment_count : PyVal
  enable_order_book : PyVal
  neg_risk : PyVal
  tags : PyVal

/-- `create_event_from_api` from `fetch_and_populate.py`; field for field
as in the source. -/
def create_event_from_api (event_data : RawDict) : Event :=
  { id := pyStr (dictGetN event_data ("id".data))
  , slug := dictGetN event_data ("slug".data)
  , ticker := dictGetN event_data ("ticker".data)
  , title := dictGetN event_data ("title".data)
  , description := dictGetN event_data ("description".data)
  , active := dictGet event_data ("active".data) (PyVal.bool false)
  , closed := dictGet event_data ("closed".data) (PyVal.bool false)
  , archived := dictGet event_data ("archived".data) (PyVal.bool false)
  , restricted := dictGet event_data ("restricted".data) (PyVal.bool false)
  , featured := dictGet event_data ("featured".data) (PyVal.bool false)
  , created_at := parse_datetime (dictGetN event_data ("createdAt".data))
  , updated_at := parse_datetime (dictGetN event_data ("updatedAt".data))
  , start_time := parse_datetime (dictGetN event_data ("startTime".data))
  , end_date := parse_datetime (dictGetN event_data ("endDate".data))
  , icon := dictGetN event_data ("icon".data)
  , image := dictGetN event_data ("image".data)
  , resolution_source := dictGetN event_data ("resolutionSource".data)
  , liquidity := dictGet event_data ("liquidity".data) (PyVal.int 0)
  , liquidity_amm := dictGet event_data ("liquidityAmm".data) (PyVal.int 0)
  , liquidity_clob := dictGet event_data ("liquidityClob".data) (PyVal.int 0)
  , open_interest := dictGet event_data ("openInterest".data) (PyVal.int 0)
  , volume := dictGet event_data ("volume".data) (PyVal.int 0)
  , volume_24hr := dictGet event_data ("volume24hr".data) (PyVal.int 0)
  , volume_1wk := dictGet event_data ("volume1wk".data) (PyVal.int 0)
  , volume_1mo := dictGet event_data ("volume1mo".data) (PyVal.int 0)
  , volume_1yr := dictGet event_data ("volume1yr".data) (PyVal.int 0)
  , cyom := dictGet event_data ("cyom".data) (PyVal.bool false)
  , competitive := dictGet event_data ("competitive".data) (PyVal.int 0)
  , comment_count := dictGet event_data ("commentCount".data) (PyVal.int 0)
  , enable_order_book := dictGet event_data ("enableOrderBook".data) (PyVal.bool false)
  , neg_risk := dictGet event_data ("negRisk".data) (PyVal.bool false)
  , tags := dictGet event_data ("tags".data) (PyVal.list []) }

/-- The mapped attributes of a `Market` row (`database_schema.py`),
holding exactly the values `create_market_from_api` assigns. -/
structure Market where
  id : List Char
  event_id : List Char
  slug : PyVal
  question : PyVal
  description : PyVal
  question_id : PyVal
  condition_id : PyVal
  active : PyVal
  closed : PyVal
  archived : PyVal
  restricted : PyVal
  featured : PyVal
  accepting_orders : PyVal
  created_at : Option PyDateTime
  updated_at : Option PyDateTime
  start_date : Option PyDateTime
  end_date : Option PyDateTime
  end_date_iso : PyVal
  event_start_time : Option PyDateTime
  accepting_orders_timestamp : Option PyDateTime
  icon : PyVal
  image : PyVal
  best_bid : Int
  best_ask : Int
  spread : Int
  last_trade_price : Int
  liquidity : List Char
  liquidity_num : PyVal
  liquidity_amm : PyVal
  liquidity_clob : PyVal
  volume : List Char
  volume_num : PyVal
  volume_24hr : PyVal
  volume_1wk : PyVal
  volume_1mo : PyVal
  volume_1yr : PyVal
  one_hour_price_change : Int
  one_day_price_change : Int
  one_week_price_change : Int
  one_month_price_change : Int
  one_year_price_change : Int
  order_min_size : PyVal
  order_price_min_tick_size : Int
  resolution_source : PyVal
  resolved_by : PyVal
  uma_bond : List Char
  uma_reward : List Char
  clob_token_ids : PyVal
  outcomes : PyVal
  neg_risk : PyVal
  enable_order_book : PyVal
  competitive : PyVal
  cyom : PyVal
  submitted_by : PyVal
  market_maker_address : PyVal

/-- `create_market_from_api` from `fetch_and_populate.py`.  The ten
`float(...)` conversions can raise; they are sequenced in the order Python
evaluates the keyword arguments, and the first failure is the exception
the call raises.  All other fields are pass-through, `str(...)`, or
`parse_datetime` applications, which cannot raise. -/
def create_market_from_api (market_data : RawDict) (event_id : List Char) : Except PyErr Market :=
  match pyFloat (dictGet market_data ("bestBid".data) (PyVal.int 0)) with
  | Except.error e => Except.error e
  | Except.ok best_bid =>
  match pyFloat (dictGet market_data ("bestAsk".data) (PyVal.int 0)) with
  | Except.error e => Except.error e
  | Except.ok best_ask =>
  match pyFloat (dictGet market_data ("spread".data) (PyVal.int 0)) with
  | Except.error e => Except.error e
  | Except.ok spread =>
  match pyFloat (dictGet market_data ("lastTradePrice".data) (PyVal.int 0)) with
  | Except.error e => Except.error e
  | Except.ok last_trade_price =>
  match pyFloat (dictGet market_data ("oneHourPriceChange".data) (PyVal.int 0)) with
  | Except.error e => Except.error e
  | Except.ok one_hour =>
  match pyFloat (dictGet market_data ("oneDayPriceChange".data) (PyVal.int 0)) with
  | Except.error e => Except.error e
  | Except.ok one_day =>
  match pyFloat (dictGet market_data ("oneWeekPriceChange".data) (PyVal.int 0)) with
  | Except.error e => Except.error e
  | Except.ok one_week =>
  match pyFloat (dictGet market_data ("oneMonthPriceChange".data) (PyVal.int 0)) with
  | Except.error e => Except.error e
  | Except.ok one_month =>
  match pyFloat (dictGet market_data ("oneYearPriceChange".data) (PyVal.int 0)) with
  | Except.error e => Except.error e
  | Except.ok one_year =>
  match pyFloat (dictGet market_data ("orderPriceMinTickSize".data) (PyVal.int 0)) with
  | Except.error e => Except.error e
  | Except.ok tick_size =>
  Except.ok
    { id := pyStr (dictGetN market_data ("id".data))
    , event_id := event_id
    , slug := dictGetN market_data ("slug".data)
    , question := dictGetN market_data ("question".data)
    , description := dictGetN market_data ("description".data)
    , question_id := dictGetN market_data ("questionID".data)
    , condition_id := dictGetN market_data ("conditionId".data)
    , active := dictGet market_data ("active".data) (PyVal.bool false)
    , closed := dictGet market_data ("closed".data) (PyVal.bool false)
    , archived := dictGet market_data ("archived".data) (PyVal.bool false)
    , restricted := dictGet market_data ("restricted".data) (PyVal.bool false)
    , featured := dictGet market_data ("featured".data) (PyVal.bool false)
    , accepting_orders := dictGet market_data ("acceptingOrders".data) (PyVal.bool false)
    , created_at := parse_datetime (dictGetN market_data ("createdAt".data))
    , updated_at := parse_datetime (dictGetN market_data ("updatedAt".data))
    , start_date := parse_datetime (dictGetN market_data ("startDate".data))
    , end_date := parse_datetime (dictGetN market_data ("endDate".data))
    , end_date_iso := dictGetN market_data ("endDateIso".data)
    , event_start_time := parse_datetime (dictGetN market_data ("eventStartTime".data))
    , accepting_orders_timestamp := parse_datetime (dictGetN market_data ("acceptingOrdersTimestamp".data))
    , icon := dictGetN market_data ("icon".data)
    , image := dictGetN market_data ("image".data)
    , best_bid := best_bid
    , best_ask := best_ask
    , spread := spread
    , last_trade_price := last_trade_price
    , liquidity := pyStr (dictGet market_data ("liquidity".data) (PyVal.int 0))
    , liquidity_num := dictGet market_data ("liquidityNum".data) (PyVal.int 0)
    , liquidity_amm := dictGet market_data ("liquidityAmm".data) (PyVal.int 0)
    , liquidity_clob := dictGet market_data ("liquidityClob".data) (PyVal.int 0)
    , volume := pyStr (dictGet market_data ("volume".data) (PyVal.int 0))
    , volume_num := dictGet market_data ("volumeNum".data) (PyVal.int 0)
    , volume_24hr := dictGet market_data ("volume24hr".data) (PyVal.int 0)
    , volume_1wk := dictGet market_data ("volume1wk".data) (PyVal.int 0)
    , volume_1mo := dictGet market_data ("volume1mo".data) (PyVal.int 0)
    , volume_1yr := dictGet market_data ("volume1yr".data) (PyVal.int 0)
    , one_hour_price_change := one_hour
    , one_day_price_change := one_day
    , one_week_price_change := one_week
    , one_month_price_change := one_month
    , one_year_price_change := one_year
    , order_min_size := dictGet market_data ("orderMinSize".data) (PyVal.int 0)
    , order_price_min_tick_size := tick_size
    , resolution_source := dictGetN market_data ("resolutionSource".data)
    , resolved_by := dictGetN market_data ("resolvedBy".data)
    , uma_bond := pyStr (dictGet market_data ("umaBond".data) (PyVal.str []))
    , uma_reward := pyStr (dictGet market_data ("umaReward".data) (PyVal.str []))
    , clob_token_ids := dictGet market_data ("clobTokenIds".data) (PyVal.list [])
    , outcomes := dictGet market_data ("outcomes".data) (PyVal.list [])
    , neg_risk := dictGet market_data ("negRisk".data) (PyVal.bool false)
    , enable_order_book := dictGet market_data ("enableOrderBook".data) (PyVal.bool false)
    , competitive := dictGet market_data ("competitive".data) (PyVal.int 0)
    , cyom := dictGet market_data ("cyom".data) (PyVal.bool false)
    , submitted_by := dictGetN market_data ("submitted_by".data)
    , market_maker_address := dictGetN market_data ("marketMakerAddress".data) }

/-- The persisted store: the `events` and `markets` tables, rows in
insertion order.  `id` is the primary key of both tables (the engine keeps
it unique); other schema-level constraints (the unique index on
`Event.slug`, the foreign key on `Market.event_id`, which SQLite does not
enforce by default) are not modelled. -/
structure DB where
  events : List Event
  markets : List Market

/-- The four counters `populate_database` accumulates. -/
structure Counts where
  events_added : Nat
  events_updated : Nat
  markets_added : Nat
  markets_updated : Nat

/-- `session.query(T).filter_by(id=k).first()`: the first row whose key
equals `k`. -/
def findK {α : Type} (key : α → List Char) (k : List Char) : List α → Option α
  | [] => Option.none
  | x :: xs => if key x = k then some x else findK key k xs

/-- The update branch of the upsert: `setattr` of every mapped attribute
from the freshly constructed record `r` onto the row the query found,
i.e. the first row with `r`'s key is replaced wholesale by `r`. -/
def replaceBy {α : Type} (key : α → List Char) (r : α) : List α → List α
  | [] => []
  | x :: xs => if key x = key r then r :: xs else x :: replaceBy key r xs

/-- Insert-or-full-overwrite of one record, keyed by `key`. -/
def upsertK {α : Type} (key : α → List Char) (t : List α) (r : α) : List α :=
  match findK key (key r) t with
  | some _ => replaceBy key r t
  | Option.none => t ++ [r]

/-- Whether a key occurs in a table. -/
def hasK {α : Type} (key : α → List Char) (k : List Char) : List α → Bool
  | [] => false
  | x :: xs => key x = k || hasK key k xs

/-- All keys of a table are distinct (the primary-key invariant the
storage engine maintains). -/
def nodupK {α : Type} (key : α → List Char) : List α → Bool
  | [] => true
  | x :: xs => !hasK key (key x) xs && nodupK key xs

/-- Apply a sequence of upserts to a table, tallying how many inserted
(`added`) and how many overwrote (`updated`). -/
def runT {α : Type} (key : α → List Char) : List α → List α → List α × Nat × Nat
  | t, [] => (t, 0, 0)
  | t, r :: rs =>
    match findK key (key r) t with
    | some _ =>
      let p := runT key (replaceBy key r t) rs
      (p.1, p.2.1, p.2.2 + 1)
    | Option.none =>
      let p := runT key (t ++ [r]) rs
      (p.1, p.2.1 + 1, p.2.2)

/-- The table after a sequence of upserts, counters dropped. -/
def tableRun {α : Type} (key : α → List Char) : List α → List α → List α
  | t, [] => t
  | t, r :: rs => tableRun key (upsertK key t r) rs

/-- The Python dict key string `'id'`. -/
def kId : List Char := "id".data

/-- The Python dict key string `'markets'`. -/
def kMarkets : List Char := "markets".data

/-- The `for market_data in markets_data` loop of `populate_database`,
processing the nested markets of one event: compute
`str(market_data.get('id'))`, query for an existing row, then construct a
fresh `Market` (which may raise) and either overwrite every attribute of
the existing row or add the fresh row, bumping the matching counter.  A
non-dict element raises `AttributeError` at its `.get` call. -/
def processMarkets (event_id : List Char) (db : DB) (c : Counts) :
    List PyVal → Except PyErr (DB × Counts)
  | [] => Except.ok (db, c)
  | PyVal.dict market_data :: rest =>
    let market_id := pyStr (dictGetN market_data kId)
    match findK Market.id market_id db.markets with
    | some _ =>
      match create_market_from_api market_data event_id with
      | Except.error e => Except.error e
      | Except.ok fresh =>
        processMarkets event_id { db with markets := replaceBy Market.id fresh db.markets }
          { c with markets_updated := c.markets_updated + 1 } rest
    | Option.none =>
      match create_market_from_api market_data event_id with
      | Except.error e => Except.error e
      | Except.ok fresh =>
        processMarkets event_id { db with markets := db.markets ++ [fresh] }
          { c with markets_added := c.markets_added + 1 } rest
  | _ :: _ => Except.error ("AttributeError: object has no attribute get".data)

/-- Iterating `event_data.get('markets', [])`: a list yields its elements;
iterating an empty string or empty dict yields nothing; iterating a
nonempty string or dict yields non-dict elements whose `.get` raises
`AttributeError`; any other value is not iterable (`TypeError`). -/
def iterMarketsVal : PyVal → Except PyErr (List PyVal)
  | PyVal.list xs => Except.ok xs
  | PyVal.str [] => Except.ok []
  | PyVal.dict [] => Except.ok []
  | PyVal.str (_ :: _) => Except.error ("AttributeError: object has no attribute get".data)
  | PyVal.dict (_ :: _) => Except.error ("AttributeError: object has no attribute get".data)
  | _ => Except.error ("TypeError: object is not iterable".data)

/-- The `for event_data in events_data` loop of `populate_database`:
upsert the event row from a freshly mapped `Event`, then process its
nested markets. -/
def processEvents (db : DB) (c : Counts) : List PyVal → Except PyErr (DB × Counts)
  | [] => Except.ok (db, c)
  | PyVal.dict event_data :: rest =>
    let fresh := create_event_from_api event_data
    let step :=
      match findK Event.id fresh.id db.events with
      | some _ =>
        ({ db with events := replaceBy Event.id fresh db.events },
         { c with events_updated := c.events_updated + 1 })
      | Option.none =>
        ({ db with events := db.events ++ [fresh] },
         { c with events_added := c.events_added + 1 })
    match iterMarketsVal (dictGet event_data kMarkets (PyVal.list [])) with
    | Except.error e => Except.error e
    | Except.ok markets_data =>
      match processMarkets fresh.id step.1 step.2 markets_data with
      | Except.error e => Except.error e
      | Except.ok (db2, c2) => processEvents db2 c2 rest
  | _ :: _ => Except.error ("AttributeError: object has no attribute get".data)

/-- `populate_database` from `fetch_and_populate.py`: process every raw
event against the session, then commit the whole batch; `Except.ok`
carries the committed store and the four counters, `Except.error` models
the exception the function re-raises after `session.rollback()`. -/
def populate_database (db : DB) (events_data : List PyVal) : Except PyErr (DB × Counts) :=
  processEvents db ⟨0, 0, 0, 0⟩ events_data

/-- The store a caller of `populate_database` observes afterwards: the
committed batch on success, the original store after the rollback on
failure. -/
def commitResult (db : DB) (events_data : List PyVal) : DB :=
  match populate_database db events_data with
  | Except.ok (db2, _) => db2
  | Except.error _ => db

/-- One write of the reconciliation batch: an Event upsert or a Market
upsert, carrying the freshly mapped record (whose `id` field is the key). -/
inductive Write where
  | ev (e : Event)
  | mk (m : Market)

/-- The Market writes one event's nested market list compiles to; the
store never influences the constructed records, only add-versus-update
classification, so this compilation is store-independent. -/
def buildMarketWrites (event_id : List Char) : List PyVal → Except PyErr (List Write)
  | [] => Except.ok []
  | PyVal.dict market_data :: rest =>
    match create_market_from_api market_data event_id with
    | Except.error e => Except.error e
    | Except.ok fm =>
      match buildMarketWrites event_id rest with
      | Except.error e => Except.error e
      | Except.ok ws => Except.ok (Write.mk fm :: ws)
  | _ :: _ => Except.error ("AttributeError: object has no attribute get".data)

/-- The full write sequence a raw event batch compiles to, in processing
order, raising exactly where `populate_database` would. -/
def buildWrites : List PyVal → Except PyErr (List Write)
  | [] => Except.ok []
  | PyVal.dict event_data :: rest =>
    match iterMarketsVal (dictGet event_data kMarkets (PyVal.list [])) with
    | Except.error e => Except.error e
    | Except.ok markets_data =>
      match buildMarketWrites (create_event_from_api event_data).id markets_data with
      | Except.error e => Except.error e
      | Except.ok mws =>
        match buildWrites rest with
        | Except.error e => Except.error e
        | Except.ok ws => Except.ok (Write.ev (create_event_from_api event_data) :: (mws ++ ws))
  | _ :: _ => Except.error ("AttributeError: object has no attribute get".data)

/-- The Event records of a write sequence, in order. -/
def evWrites : List Write → List Event
  | [] => []
  | Write.ev e :: ws => e :: evWrites ws
  | Write.mk _ :: ws => evWrites ws

/-- The Market records of a write sequence, in order. -/
def mkWrites : List Write → List Market
  | [] => []
  | Write.ev _ :: ws => mkWrites ws
  | Write.mk m :: ws => m :: mkWrites ws

/-- Apply a write sequence to the store: Event writes touch only the
events table and Market writes only the markets table, so the batch acts
as two independent upsert sequences, with the counters recording the
add/update classification of each. -/
def applySplit (db : DB) (c : Counts) (ws : List Write) : DB × Counts :=
  (⟨(runT Event.id db.events (evWrites ws)).1, (runT Market.id db.markets (mkWrites ws)).1⟩,
   ⟨c.events_added + (runT Event.id db.events (evWrites ws)).2.1,
    c.events_updated + (runT Event.id db.events (evWrites ws)).2.2,
    c.markets_added + (runT Market.id db.markets (mkWrites ws)).2.1,
    c.markets_updated + (runT Market.id db.markets (mkWrites ws)).2.2⟩)

/-- Python `.lower()` on a character list (ASCII case folding, which is
all the tag data uses). -/
def lowerChars (s : List Char) : List Char := s.map Char.toLower

/-- Whether `needle` matches at the head of `hay`. -/
def leadMatch : List Char → List Char → Bool
  | [], _ => true
  | _ :: _, [] => false
  | a :: as, b :: bs => a = b && leadMatch as bs

/-- Python substring test `needle in hay` on strings. -/
def hasSub (needle : List Char) : List Char → Bool
  | [] => needle.isEmpty
  | c :: rest => leadMatch needle (c :: rest) || hasSub needle rest

/-- Python `value.lower()` where `value` came from `tag.get(...)`: lowers
a string, raises `AttributeError` on anything else (e.g. an explicit
`null` label). -/
def pyLower : PyVal → Except PyErr (List Char)
  | PyVal.str s => Except.ok (lowerChars s)
  | _ => Except.error ("AttributeError: object has no attribute lower".data)

/-- The Python dict key string `'label'`. -/
def kLabel : List Char := "label".data

/-- The Python dict key string `'slug'`. -/
def kSlug : List Char := "slug".data

/-- The inner `for tag in event.tags` loop of `get_events_by_tag`: a dict
tag matches when the lowered keyword is a substring of its lowered label
or slug, a plain-string tag matches on the string itself, and any other
element is skipped (neither `isinstance` branch applies); the loop stops
at the first match. -/
def scanTags (tag_keyword : List Char) : List PyVal → Except PyErr Bool
  | [] => Except.ok false
  | PyVal.dict d :: rest =>
    match pyLower (dictGet d kLabel (PyVal.str [])) with
    | Except.error e => Except.error e
    | Except.ok tag_label =>
      match pyLower (dictGet d kSlug (PyVal.str [])) with
      | Except.error e => Except.error e
      | Except.ok tag_slug =>
        if hasSub (lowerChars tag_keyword) tag_label || hasSub (lowerChars tag_keyword) tag_slug
        then Except.ok true
        else scanTags tag_keyword rest
  | PyVal.str s :: rest =>
    if hasSub (lowerChars tag_keyword) (lowerChars s) then Except.ok true
    else scanTags tag_keyword rest
  | _ :: rest => scanTags tag_keyword rest

/-- Iterating `event.tags` when it is truthy: a list yields its elements;
a string yields its characters as one-character strings; a dict yields its
keys; numbers and booleans are not iterable (`TypeError`). -/
def iterTags : PyVal → Except PyErr (List PyVal)
  | PyVal.list xs => Except.ok xs
  | PyVal.str s => Except.ok (s.map (fun ch => PyVal.str [ch]))
  | PyVal.dict d => Except.ok (d.map (fun kv => PyVal.str kv.1))
  | PyVal.int _ => Except.error ("TypeError: object is not iterable".data)
  | PyVal.bool _ => Except.error ("TypeError: object is not iterable".data)
  | PyVal.none => Except.error ("TypeError: object is not iterable".data)

/-- SQL `Event.active == True` on the stored value. -/
def isActiveTrue (e : Event) : Bool :=
  match e.active with
  | PyVal.bool true => true
  | _ => false

/-- A linear key for comparing stored datetimes (`Event.end_date > now`);
offsets play no role in the claims, so the comparison is on the calendar
fields. -/
def dtCode (d : PyDateTime) : Nat :=
  ((((d.year * 12 + d.month) * 31 + d.day) * 24 + d.hour) * 60 + d.minute) * 60 + d.second

/-- SQL `Event.end_date > now`: false for a NULL end date. -/
def dtAfter (d : Option PyDateTime) (now : PyDateTime) : Bool :=
  match d with
  | some dt => dtCode now < dtCode dt
  | Option.none => false

/-- The `session.query(Event).filter(Event.end_date > now,
Event.active == True).all()` prefix of `get_events_by_tag`. -/
def future_active_events (db : DB) (now : PyDateTime) : List Event :=
  db.events.filter (fun e => dtAfter e.end_date now && isActiveTrue e)

/-- The outer `for event in all_future_events` loop of
`get_events_by_tag`: scan tags when `event.tags` is truthy, append the
event on a tag match, and after each event stop as soon as
`len(matching_events) >= limit`. -/
def events_by_tag_go (tag_keyword : List Char) (limit : Nat) :
    List Event → List Event → Except PyErr (List Event)
  | [], acc => Except.ok acc
  | e :: rest, acc =>
    match
      (if pyTruthy e.tags then
        match iterTags e.tags with
        | Except.error err => Except.error err
        | Except.ok ts =>
          match scanTags tag_keyword ts with
          | Except.error err => Except.error err
          | Except.ok matched => Except.ok (if matched then acc ++ [e] else acc)
      else Except.ok acc) with
    | Except.error err => Except.error err
    | Except.ok acc2 =>
      if limit ≤ acc2.length then Except.ok acc2
      else events_by_tag_go tag_keyword limit rest acc2

/-- `get_events_by_tag` from `search_event_db.py`. -/
def get_events_by_tag (db : DB) (tag_keyword : List Char) (limit : Nat) (now : PyDateTime) :
    Except PyErr (List Event) :=
  events_by_tag_go tag_keyword limit (future_active_events db now) []

/-- Whether one event's tag list matches the keyword, exactly as the inner
loop decides it (false as well when the scan would raise; in an error-free
run this coincides with the loop). -/
def eventMatches (tag_keyword : List Char) (e : Event) : Bool :=
  pyTruthy e.tags &&
    match iterTags e.tags with
    | Except.error _ => false
    | Except.ok ts =>
      match scanTags tag_keyword ts with
      | Except.error _ => false
      | Except.ok b => b

/-- A Market record with vacuous contents, used only to give `Market` an
`Inhabited` instance for fixture extraction. -/
def marketDefault : Market :=
  { id := [], event_id := [], slug := PyVal.none, question := PyVal.none,
    description := PyVal.none, question_id := PyVal.none, condition_id := PyVal.none,
    active := PyVal.none, closed := PyVal.none, archived := PyVal.none,
    restricted := PyVal.none, featured := PyVal.none, accepting_orders := PyVal.none,
    created_at := Option.none, updated_at := Option.none, start_date := Option.none,
    end_date := Option.none, end_date_iso := PyVal.none, event_start_time := Option.none,
    accepting_orders_timestamp := Option.none, icon := PyVal.none, image := PyVal.none,
    best_bid := 0, best_ask := 0, spread := 0, last_trade_price := 0,
    liquidity := [], liquidity_num := PyVal.none, liquidity_amm := PyVal.none,
    liquidity_clob := PyVal.none, volume := [], volume_num := PyVal.none,
    volume_24hr := PyVal.none, volume_1wk := PyVal.none, volume_1mo := PyVal.none,
    volume_1yr := PyVal.none, one_hour_price_change := 0, one_day_price_change := 0,
    one_week_price_change := 0, one_month_price_change := 0, one_year_price_change := 0,
    order_min_size := PyVal.none, order_price_min_tick_size := 0,
    resolution_source := PyVal.none, resolved_by := PyVal.none, uma_bond := [],
    uma_reward := [], clob_token_ids := PyVal.none, outcomes := PyVal.none,
    neg_risk := PyVal.none, enable_order_book := PyVal.none, competitive := PyVal.none,
    cyom := PyVal.none, submitted_by := PyVal.none, market_maker_address := PyVal.none }

instance : Inhabited Market := ⟨marketDefault⟩

/-- Fixture: the raw market of the spec scenario
(`{"id":"10","question":"Will X happen?"}`). -/
def fxRawMarket : RawDict :=
  [(kId, PyVal.int 10), (("question".data), PyVal.str ("Will X happen?".data))]

/-- Fixture: the raw event of the spec scenario. -/
def fxRawEvent : RawDict :=
  [(kId, PyVal.int 1), (("slug".data), PyVal.str ("will-x-happen".data)),
   (kMarkets, PyVal.list [PyVal.dict fxRawMarket])]

/-- Fixture: an empty store. -/
def fxDb0 : DB := ⟨[], []⟩

/-- Fixture: the one-event batch. -/
def fxEvents : List PyVal := [PyVal.dict fxRawEvent]

/-- Fixture: the mapped event row. -/
def fxEvent : Event := create_event_from_api fxRawEvent

/-- Fixture: the mapped market row. -/
def fxMarket : Market :=
  match create_market_from_api fxRawMarket fxEvent.id with
  | Except.ok m => m
  | Except.error _ => default

/-- Fixture: the store after one reconciliation of the scenario batch. -/
def fxDb1 : DB := ⟨[fxEvent], [fxMarket]⟩

/-- Fixture: a raw market whose `bestBid` is an explicit JSON null, so
`float(None)` raises during mapping. -/
def fxRawMarketBad : RawDict := [(kId, PyVal.int 10), (("bestBid".data), PyVal.none)]

/-- Fixture: a raw event carrying one good and one unmappable market. -/
def fxRawEventBad : RawDict :=
  [(kId, PyVal.int 1),
   (kMarkets, PyVal.list [PyVal.dict fxRawMarket, PyVal.dict fxRawMarketBad])]

/-- Fixture: a future, active raw event tagged Crypto/crypto. -/
def fxRawEventCrypto : RawDict :=
  [(kId, PyVal.int 2), (("active".data), PyVal.bool true),
   (("endDate".data), PyVal.str ("2999-01-01T00:00:00Z".data)),
   (("tags".data), PyVal.list [PyVal.dict [(kLabel, PyVal.str ("Crypto".data)),
      (kSlug, PyVal.str ("crypto".data))]])]

/-- Fixture: the mapped Crypto event row. -/
def fxEventCrypto : Event := create_event_from_api fxRawEventCrypto

/-- Fixture: a store holding only the Crypto event. -/
def fxDbCrypto : DB := ⟨[fxEventCrypto], []⟩

/-- Fixture: a query time before the fixture end dates. -/
def fxNow : PyDateTime := ⟨2025, 1, 1, 0, 0, 0, Option.none⟩

/-- Fixture: a future, active raw event whose tag list mixes a plain
string and a label/slug object. -/
def fxRawEventMixed : RawDict :=
  [(kId, PyVal.int 3), (("active".data), PyVal.bool true),
   (("endDate".data), PyVal.str ("2999-01-01T00:00:00Z".data)),
   (("tags".data), PyVal.list [PyVal.str ("Politics".data),
      PyVal.dict [(kLabel, PyVal.str ("Crypto".data)), (kSlug, PyVal.str ("crypto".data))]])]

/-- Fixture: the mapped mixed-tags event row. -/
def fxEventMixed : Event := create_event_from_api fxRawEventMixed

/-- Fixture: the market mapped from an empty raw record (every field
missing). -/
def fxMarketEmpty : Market :=
  match create_market_from_api [] [] with
  | Except.ok m => m
  | Except.error _ => default

/-- Two tables that have the same shape and agree everywhere except
possibly at the first row carrying key `k` (which both hold at the same
position).  The perturbation the second run of an idempotent upsert batch
introduces before the batch overwrites it again. -/
def EqExceptAt {α : Type} (key : α → List Char) (k : List Char) (tA tB : List α) : Prop :=
  ∃ pre x y post, tA = pre ++ x :: post ∧ tB = pre ++ y :: post ∧
    key x = k ∧ key y = k ∧ hasK key k pre = false

/-- Fixture: a raw event with no markets field at all. -/
def fxRawEventNoMarkets : RawDict := [(kId, PyVal.int 9)]

set_option maxRecDepth 40000

/-! ## Pagination (fetch_all_active_events) -/

theorem fetch_all_go_zero (limit : Nat) (pages : List (List PyVal)) :
    ∀ acc, fetch_all_go limit (some 0) pages acc = fetch_all_go limit Option.none pages acc := by
  induction pages with
  | nil => intro acc; rfl
  | cons p rest ih =>
    intro acc
    simp only [fetch_all_go, maxTruthy]
    split
    · rfl
    · split
      · rfl
      · rw [if_neg (fun hh => by simp [maxTruthy] at hh),
          if_neg (fun hh => by simp [maxTruthy] at hh)]
        exact ih (acc ++ p)

theorem fetch_go_full (k : Nat) (hk : 0 < k) :
    ∀ (pages : List (List PyVal)) (acc : List PyVal),
      (∀ p ∈ pages, p.length = 100) →
      acc.length < k → k ≤ acc.length + 100 * pages.length →
      (fetch_all_go 100 (some k) pages acc).length = k := by
  intro pages
  induction pages with
  | nil =>
    intro acc _ hlt hle
    simp only [List.length_nil, Nat.mul_zero, Nat.add_zero] at hle
    exact absurd hle (Nat.not_le_of_lt hlt)
  | cons p rest ih =>
    intro acc hfull hlt hle
    have hp : p.length = 100 := hfull p (List.mem_cons_self p rest)
    have hne : p.isEmpty = false := by
      cases p with
      | nil => simp at hp
      | cons a as => rfl
    have hlen : (acc ++ p).length = acc.length + 100 := by simp [hp]
    simp only [fetch_all_go, hne, Bool.false_eq_true, if_false, hp]
    rw [if_neg (by omega)]
    by_cases hcase : k ≤ (acc ++ p).length
    · rw [if_pos ?_]
      · simp only [List.length_take, Option.getD_some]
        omega
      · constructor
        · simp [maxTruthy, Nat.pos_iff_ne_zero.mp hk]
        · simpa only [Option.getD_some] using hcase
    · rw [if_neg ?_]
      · apply ih (acc ++ p) (fun q hq => hfull q (List.mem_cons_of_mem p hq))
        · omega
        · simp only [List.length_cons] at hle
          omega
      · intro hand
        rw [Option.getD_some] at hand
        exact hcase hand.2

/-- C1: the claim as stated is false: with `max_events = 150` and pages of
100 and then 60 records (the second page short), `fetch_all_active_events`
stops on the short page before the truncation guard runs and returns all
160 records, exceeding `maxRecords`. -/
theorem C1_counterexample :
    150 <
      (fetch_all_active_events
        [List.replicate 100 (PyVal.int 0), List.replicate 60 (PyVal.int 0)]
        (some 150)).length := by
  decide

/-- C1 (amended): `fetch_all_active_events` stops paginating as soon as a
page returns fewer records than the page size 100 (later pages are never
consulted), and when a positive `maxRecords` is reached on full pages the
returned list is truncated to exactly `maxRecords`; however a final short
page is appended without the `maxRecords` check, so the result can exceed
`maxRecords` (see the counterexample). -/
theorem C1_amended_pagination :
    (∀ (page : List PyVal) (rest : List (List PyVal)) (m : Option Nat),
      page.length < 100 →
      fetch_all_active_events (page :: rest) m = fetch_all_active_events [page] m) ∧
    (∀ (pages : List (List PyVal)) (k : Nat),
      0 < k → (∀ p ∈ pages, p.length = 100) → k ≤ 100 * pages.length →
      (fetch_all_active_events pages (some k)).length = k) := by
  constructor
  · intro page rest m h
    simp only [fetch_all_active_events, fetch_all_go]
    split
    · rfl
    · rfl
  · intro pages k hk hfull hle
    exact fetch_go_full k hk pages [] hfull (by simpa using hk) (by simpa using hle)

/-- C1 witness: the amended theorem applied at concrete inputs: a short
first page of one record ends pagination regardless of the remaining
pages, and two full pages with `maxRecords = 150` yield exactly 150
records. -/
theorem C1_witness :
    fetch_all_active_events [[PyVal.int 0], [PyVal.int 7]] (some 5) =
      fetch_all_active_events [[PyVal.int 0]] (some 5) ∧
    (fetch_all_active_events
      [List.replicate 100 (PyVal.int 0), List.replicate 100 (PyVal.int 0)]
      (some 150)).length = 150 :=
  ⟨C1_amended_pagination.1 [PyVal.int 0] [[PyVal.int 7]] (some 5) (by decide),
   C1_amended_pagination.2 [List.replicate 100 (PyVal.int 0), List.replicate 100 (PyVal.int 0)]
     150 (by decide) (by decide) (by decide)⟩

/-- C10: because the truncation guard tests Python truthiness of
`max_events`, the value 0 disables the limit entirely:
`fetch_all_active_events pages (some 0)` coincides with
`fetch_all_active_events pages none` on every page sequence, paginating
until a short or empty page. -/
theorem C10_zero_disables_limit :
    ∀ pages : List (List PyVal),
      fetch_all_active_events pages (some 0) = fetch_all_active_events pages Option.none :=
  fun pages => fetch_all_go_zero 100 pages []

/-! ## Datetime parsing -/

theorem replaceZ_no_z (s : List Char) (h : 'Z' ∉ s) : replaceZ s = s := by
  induction s with
  | nil => rfl
  | cons c cs ih =>
    have hc : c ≠ 'Z' := fun hc => h (hc ▸ List.mem_cons_self c cs)
    simp only [replaceZ, if_neg hc]
    rw [ih (fun hm => h (List.mem_cons_of_mem c hm))]

theorem replaceZ_append_z (s : List Char) (h : 'Z' ∉ s) :
    replaceZ (s ++ ['Z']) = s ++ ('+' :: '0' :: '0' :: ':' :: '0' :: '0' :: []) := by
  induction s with
  | nil => rfl
  | cons c cs ih =>
    have hc : c ≠ 'Z' := fun hc => h (hc ▸ List.mem_cons_self c cs)
    simp only [List.cons_append, replaceZ, if_neg hc]
    rw [List.append_eq, ih (fun hm => h (List.mem_cons_of_mem c hm))]

/-- C6: `parse_datetime` maps absent input (`None` and the empty string)
to `None`; a string ending in `Z` (and containing no other `Z`) is parsed
exactly as the same string with the `Z` replaced by the UTC offset
`+00:00`, so `2024-01-15T12:30:45Z` parses to a UTC (offset-0) datetime;
and any string the underlying ISO-8601 parser rejects yields `None`
instead of raising. -/
theorem C6_parse_datetime :
    parse_datetime PyVal.none = Option.none ∧
    parse_datetime (PyVal.str []) = Option.none ∧
    (∀ s : List Char, 'Z' ∉ s →
      parse_datetime (PyVal.str (s ++ ['Z'])) =
        fromisoformat (s ++ ('+' :: '0' :: '0' :: ':' :: '0' :: '0' :: []))) ∧
    parse_datetime (PyVal.str ("2024-01-15T12:30:45Z".data)) =
      some ⟨2024, 1, 15, 12, 30, 45, some 0⟩ ∧
    (∀ s : List Char, fromisoformat (replaceZ s) = Option.none →
      parse_datetime (PyVal.str s) = Option.none) ∧
    parse_datetime (PyVal.str ("not-a-date".data)) = Option.none := by
  refine ⟨rfl, rfl, ?_, rfl, ?_, rfl⟩
  · intro s h
    cases s with
    | nil => rfl
    | cons c cs =>
      simp only [List.cons_append, parse_datetime]
      rw [show (c :: (cs ++ ['Z'])) = ((c :: cs) ++ ['Z']) from rfl, replaceZ_append_z (c :: cs) h]
      rfl
  · intro s h
    cases s with
    | nil => rfl
    | cons c cs => simpa only [parse_datetime] using h

/-- C6 witness: the quantified parts of the theorem at concrete inputs: a
concrete `Z`-suffixed timestamp is parsed as its `+00:00` counterpart, and
a concrete unparsable string yields `None`. -/
theorem C6_witness :
    parse_datetime (PyVal.str ("2024-01-15T12:30:45".data ++ ['Z'])) =
      fromisoformat ("2024-01-15T12:30:45".data ++ ('+' :: '0' :: '0' :: ':' :: '0' :: '0' :: [])) ∧
    parse_datetime (PyVal.str ("xyz".data)) = Option.none :=
  ⟨C6_parse_datetime.2.2.1 ("2024-01-15T12:30:45".data) (by decide),
   C6_parse_datetime.2.2.2.2.1 ("xyz".data) rfl⟩

/-! ## Page fetch -/

/-- C7: `fetch_active_events` returns the parsed JSON array exactly when
the HTTP status is 200, and the empty list for every other status; as a
total function of the response it never raises, so a failed page is a soft
failure the pagination loop ends on. -/
theorem C7_fetch_page :
    (∀ r : HttpResponse, r.status_code = 200 → fetch_active_events r = r.body) ∧
    (∀ r : HttpResponse, r.status_code ≠ 200 → fetch_active_events r = []) := by
  constructor <;> intro r h <;> simp [fetch_active_events, h]

/-- C7 witness: the theorem at a 200 response and at a 404 response. -/
theorem C7_witness :
    fetch_active_events ⟨200, [PyVal.int 1]⟩ = [PyVal.int 1] ∧
    fetch_active_events ⟨404, [PyVal.int 1]⟩ = [] :=
  ⟨C7_fetch_page.1 ⟨200, [PyVal.int 1]⟩ rfl,
   C7_fetch_page.2 ⟨404, [PyVal.int 1]⟩ (by decide)⟩

/-! ## Field mapping defaults -/

theorem dictGet_of_missing (d : RawDict) (k : List Char) (v : PyVal)
    (h : dictFind d k = Option.none) : dictGet d k v = v := by
  simp [dictGet, h]

theorem pyFloat_int_ok (n x : Int) (h : pyFloat (PyVal.int n) = Except.ok x) : x = n := by
  simp only [pyFloat, Except.ok.injEq] at h
  exact h.symm

theorem create_market_ok_shape (d : RawDict) (eid : List Char) (fm : Market)
    (h : create_market_from_api d eid = Except.ok fm) :
    fm.id = pyStr (dictGetN d kId) ∧
    fm.event_id = eid ∧
    pyFloat (dictGet d ("bestBid".data) (PyVal.int 0)) = Except.ok fm.best_bid ∧
    pyFloat (dictGet d ("bestAsk".data) (PyVal.int 0)) = Except.ok fm.best_ask ∧
    pyFloat (dictGet d ("spread".data) (PyVal.int 0)) = Except.ok fm.spread ∧
    pyFloat (dictGet d ("lastTradePrice".data) (PyVal.int 0)) = Except.ok fm.last_trade_price ∧
    pyFloat (dictGet d ("oneHourPriceChange".data) (PyVal.int 0)) = Except.ok fm.one_hour_price_change ∧
    pyFloat (dictGet d ("oneDayPriceChange".data) (PyVal.int 0)) = Except.ok fm.one_day_price_change ∧
    pyFloat (dictGet d ("oneWeekPriceChange".data) (PyVal.int 0)) = Except.ok fm.one_week_price_change ∧
    pyFloat (dictGet d ("oneMonthPriceChange".data) (PyVal.int 0)) = Except.ok fm.one_month_price_change ∧
    pyFloat (dictGet d ("oneYearPriceChange".data) (PyVal.int 0)) = Except.ok fm.one_year_price_change ∧
    pyFloat (dictGet d ("orderPriceMinTickSize".data) (PyVal.int 0)) = Except.ok fm.order_price_min_tick_size ∧
    fm.liquidity_num = dictGet d ("liquidityNum".data) (PyVal.int 0) ∧
    fm.liquidity_amm = dictGet d ("liquidityAmm".data) (PyVal.int 0) ∧
    fm.liquidity_clob = dictGet d ("liquidityClob".data) (PyVal.int 0) ∧
    fm.volume_num = dictGet d ("volumeNum".data) (PyVal.int 0) ∧
    fm.volume_24hr = dictGet d ("volume24hr".data) (PyVal.int 0) ∧
    fm.volume_1wk = dictGet d ("volume1wk".data) (PyVal.int 0) ∧
    fm.volume_1mo = dictGet d ("volume1mo".data) (PyVal.int 0) ∧
    fm.volume_1yr = dictGet d ("volume1yr".data) (PyVal.int 0) ∧
    fm.order_min_size = dictGet d ("orderMinSize".data) (PyVal.int 0) ∧
    fm.competitive = dictGet d ("competitive".data) (PyVal.int 0) ∧
    fm.active = dictGet d ("active".data) (PyVal.bool false) ∧
    fm.closed = dictGet d ("closed".data) (PyVal.bool false) ∧
    fm.archived = dictGet d ("archived".data) (PyVal.bool false) ∧
    fm.restricted = dictGet d ("restricted".data) (PyVal.bool false) ∧
    fm.featured = dictGet d ("featured".data) (PyVal.bool false) ∧
    fm.accepting_orders = dictGet d ("acceptingOrders".data) (PyVal.bool false) ∧
    fm.neg_risk = dictGet d ("negRisk".data) (PyVal.bool false) ∧
    fm.enable_order_book = dictGet d ("enableOrderBook".data) (PyVal.bool false) ∧
    fm.cyom = dictGet d ("cyom".data) (PyVal.bool false) ∧
    fm.clob_token_ids = dictGet d ("clobTokenIds".data) (PyVal.list []) ∧
    fm.outcomes = dictGet d ("outcomes".data) (PyVal.list []) := by
  unfold create_market_from_api at h
  repeat' split at h
  all_goals try exact Except.noConfusion h
  injection h with h2
  subst h2
  refine ⟨rfl, rfl, ?_, ?_, ?_, ?_, ?_, ?_, ?_, ?_, ?_, ?_, rfl, rfl, rfl, rfl, rfl, rfl, rfl, rfl, rfl, rfl, rfl, rfl, rfl, rfl, rfl, rfl, rfl, rfl, rfl, rfl, rfl⟩ <;> assumption

/-- C5: the claim as stated is false: a field that is present but
explicitly null is not replaced by a default; `Event.liquidity`, a numeric
attribute, receives the null unchanged. -/
theorem C5_counterexample :
    (create_event_from_api [(("liquidity".data), PyVal.none)]).liquidity = PyVal.none := rfl

/-- C5 (amended): every field that is absent from the raw record is given
a type-appropriate zero default (0 for numeric fields, false for boolean
fields, the empty list for list fields) by `create_event_from_api` and
`create_market_from_api`; however a field that is present with an explicit
null is passed through unchanged, so a null does reach pass-through
numeric attributes (e.g. `Event.liquidity`, see the counterexample), and a
null in a `float(...)`-wrapped Market field raises instead of defaulting. -/
theorem C5_amended_defaults :
    (∀ d : RawDict,
       (dictFind d ("liquidity".data) = Option.none → (create_event_from_api d).liquidity = PyVal.int 0) ∧
       (dictFind d ("liquidityAmm".data) = Option.none → (create_event_from_api d).liquidity_amm = PyVal.int 0) ∧
       (dictFind d ("liquidityClob".data) = Option.none → (create_event_from_api d).liquidity_clob = PyVal.int 0) ∧
       (dictFind d ("openInterest".data) = Option.none → (create_event_from_api d).open_interest = PyVal.int 0) ∧
       (dictFind d ("volume".data) = Option.none → (create_event_from_api d).volume = PyVal.int 0) ∧
       (dictFind d ("volume24hr".data) = Option.none → (create_event_from_api d).volume_24hr = PyVal.int 0) ∧
       (dictFind d ("volume1wk".data) = Option.none → (create_event_from_api d).volume_1wk = PyVal.int 0) ∧
       (dictFind d ("volume1mo".data) = Option.none → (create_event_from_api d).volume_1mo = PyVal.int 0) ∧
       (dictFind d ("volume1yr".data) = Option.none → (create_event_from_api d).volume_1yr = PyVal.int 0) ∧
       (dictFind d ("competitive".data) = Option.none → (create_event_from_api d).competitive = PyVal.int 0) ∧
       (dictFind d ("commentCount".data) = Option.none → (create_event_from_api d).comment_count = PyVal.int 0) ∧
       (dictFind d ("active".data) = Option.none → (create_event_from_api d).active = PyVal.bool false) ∧
       (dictFind d ("closed".data) = Option.none → (create_event_from_api d).closed = PyVal.bool false) ∧
       (dictFind d ("archived".data) = Option.none → (create_event_from_api d).archived = PyVal.bool false) ∧
       (dictFind d ("restricted".data) = Option.none → (create_event_from_api d).restricted = PyVal.bool false) ∧
       (dictFind d ("featured".data) = Option.none → (create_event_from_api d).featured = PyVal.bool false) ∧
       (dictFind d ("cyom".data) = Option.none → (create_event_from_api d).cyom = PyVal.bool false) ∧
       (dictFind d ("enableOrderBook".data) = Option.none → (create_event_from_api d).enable_order_book = PyVal.bool false) ∧
       (dictFind d ("negRisk".data) = Option.none → (create_event_from_api d).neg_risk = PyVal.bool false) ∧
       (dictFind d ("tags".data) = Option.none → (create_event_from_api d).tags = PyVal.list [])) ∧
    (∀ (d : RawDict) (eid : List Char) (fm : Market),
      create_market_from_api d eid = Except.ok fm →
       ((dictFind d ("bestBid".data) = Option.none → fm.best_bid = 0) ∧
       (dictFind d ("bestAsk".data) = Option.none → fm.best_ask = 0) ∧
       (dictFind d ("spread".data) = Option.none → fm.spread = 0) ∧
       (dictFind d ("lastTradePrice".data) = Option.none → fm.last_trade_price = 0) ∧
       (dictFind d ("oneHourPriceChange".data) = Option.none → fm.one_hour_price_change = 0) ∧
       (dictFind d ("oneDayPriceChange".data) = Option.none → fm.one_day_price_change = 0) ∧
       (dictFind d ("oneWeekPriceChange".data) = Option.none → fm.one_week_price_change = 0) ∧
       (dictFind d ("oneMonthPriceChange".data) = Option.none → fm.one_month_price_change = 0) ∧
       (dictFind d ("oneYearPriceChange".data) = Option.none → fm.one_year_price_change = 0) ∧
       (dictFind d ("orderPriceMinTickSize".data) = Option.none → fm.order_price_min_tick_size = 0) ∧
       (dictFind d ("liquidityNum".data) = Option.none → fm.liquidity_num = PyVal.int 0) ∧
       (dictFind d ("liquidityAmm".data) = Option.none → fm.liquidity_amm = PyVal.int 0) ∧
       (dictFind d ("liquidityClob".data) = Option.none → fm.liquidity_clob = PyVal.int 0) ∧
       (dictFind d ("volumeNum".data) = Option.none → fm.volume_num = PyVal.int 0) ∧
       (dictFind d ("volume24hr".data) = Option.none → fm.volume_24hr = PyVal.int 0) ∧
       (dictFind d ("volume1wk".data) = Option.none → fm.volume_1wk = PyVal.int 0) ∧
       (dictFind d ("volume1mo".data) = Option.none → fm.volume_1mo = PyVal.int 0) ∧
       (dictFind d ("volume1yr".data) = Option.none → fm.volume_1yr = PyVal.int 0) ∧
       (dictFind d ("orderMinSize".data) = Option.none → fm.order_min_size = PyVal.int 0) ∧
       (dictFind d ("competitive".data) = Option.none → fm.competitive = PyVal.int 0) ∧
       (dictFind d ("active".data) = Option.none → fm.active = PyVal.bool false) ∧
       (dictFind d ("closed".data) = Option.none → fm.closed = PyVal.bool false) ∧
       (dictFind d ("archived".data) = Option.none → fm.archived = PyVal.bool false) ∧
       (dictFind d ("restricted".data) = Option.none → fm.restricted = PyVal.bool false) ∧
       (dictFind d ("featured".data) = Option.none → fm.featured = PyVal.bool false) ∧
       (dictFind d ("acceptingOrders".data) = Option.none → fm.accepting_orders = PyVal.bool false) ∧
       (dictFind d ("negRisk".data) = Option.none → fm.neg_risk = PyVal.bool false) ∧
       (dictFind d ("enableOrderBook".data) = Option.none → fm.enable_order_book = PyVal.bool false) ∧
       (dictFind d ("cyom".data) = Option.none → fm.cyom = PyVal.bool false) ∧
       (dictFind d ("clobTokenIds".data) = Option.none → fm.clob_token_ids = PyVal.list []) ∧
       (dictFind d ("outcomes".data) = Option.none → fm.outcomes = PyVal.list []))) ∧
    (create_event_from_api [(("liquidity".data), PyVal.none)]).liquidity = PyVal.none ∧
    (∃ e, create_market_from_api [(("bestBid".data), PyVal.none)] [] = Except.error e) := by
  refine ⟨fun d => ?_, fun d eid fm hok => ?_, rfl, ⟨_, rfl⟩⟩
  · exact
     ⟨fun h => by simp only [create_event_from_api]; exact dictGet_of_missing _ _ _ h,
     fun h => by simp only [create_event_from_api]; exact dictGet_of_missing _ _ _ h,
     fun h => by simp only [create_event_from_api]; exact dictGet_of_missing _ _ _ h,
     fun h => by simp only [create_event_from_api]; exact dictGet_of_missing _ _ _ h,
     fun h => by simp only [create_event_from_api]; exact dictGet_of_missing _ _ _ h,
     fun h => by simp only [create_event_from_api]; exact dictGet_of_missing _ _ _ h,
     fun h => by simp only [create_event_from_api]; exact dictGet_of_missing _ _ _ h,
     fun h => by simp only [create_event_from_api]; exact dictGet_of_missing _ _ _ h,
     fun h => by simp only [create_event_from_api]; exact dictGet_of_missing _ _ _ h,
     fun h => by simp only [create_event_from_api]; exact dictGet_of_missing _ _ _ h,
     fun h => by simp only [create_event_from_api]; exact dictGet_of_missing _ _ _ h,
     fun h => by simp only [create_event_from_api]; exact dictGet_of_missing _ _ _ h,
     fun h => by simp only [create_event_from_api]; exact dictGet_of_missing _ _ _ h,
     fun h => by simp only [create_event_from_api]; exact dictGet_of_missing _ _ _ h,
     fun h => by simp only [create_event_from_api]; exact dictGet_of_missing _ _ _ h,
     fun h => by simp only [create_event_from_api]; exact dictGet_of_missing _ _ _ h,
     fun h => by simp only [create_event_from_api]; exact dictGet_of_missing _ _ _ h,
     fun h => by simp only [create_event_from_api]; exact dictGet_of_missing _ _ _ h,
     fun h => by simp only [create_event_from_api]; exact dictGet_of_missing _ _ _ h,
     fun h => by simp only [create_event_from_api]; exact dictGet_of_missing _ _ _ h⟩
  · obtain ⟨hid, hev, hbb, hba, hsp, hlt, h1h, h1d, h1w, h1m, h1y, hts, hliqn, hliqa, hliqc, hvoln, hv24, hv1w, hv1m, hv1y, homs, hcomp, hact, hclo, harc, hres, hfea, hacc, hneg, henb, hcyom, hcti, houtc⟩ := create_market_ok_shape d eid fm hok
    exact
      ⟨fun h => by rw [dictGet_of_missing _ _ _ h] at hbb; exact pyFloat_int_ok 0 _ hbb,
       fun h => by rw [dictGet_of_missing _ _ _ h] at hba; exact pyFloat_int_ok 0 _ hba,
       fun h => by rw [dictGet_of_missing _ _ _ h] at hsp; exact pyFloat_int_ok 0 _ hsp,
       fun h => by rw [dictGet_of_missing _ _ _ h] at hlt; exact pyFloat_int_ok 0 _ hlt,
       fun h => by rw [dictGet_of_missing _ _ _ h] at h1h; exact pyFloat_int_ok 0 _ h1h,
       fun h => by rw [dictGet_of_missing _ _ _ h] at h1d; exact pyFloat_int_ok 0 _ h1d,
       fun h => by rw [dictGet_of_missing _ _ _ h] at h1w; exact pyFloat_int_ok 0 _ h1w,
       fun h => by rw [dictGet_of_missing _ _ _ h] at h1m; exact pyFloat_int_ok 0 _ h1m,
       fun h => by rw [dictGet_of_missing _ _ _ h] at h1y; exact pyFloat_int_ok 0 _ h1y,
       fun h => by rw [dictGet_of_missing _ _ _ h] at hts; exact pyFloat_int_ok 0 _ hts,
       fun h => by rw [hliqn, dictGet_of_missing _ _ _ h],
       fun h => by rw [hliqa, dictGet_of_missing _ _ _ h],
       fun h => by rw [hliqc, dictGet_of_missing _ _ _ h],
       fun h => by rw [hvoln, dictGet_of_missing _ _ _ h],
       fun h => by rw [hv24, dictGet_of_missing _ _ _ h],
       fun h => by rw [hv1w, dictGet_of_missing _ _ _ h],
       fun h => by rw [hv1m, dictGet_of_missing _ _ _ h],
       fun h => by rw [hv1y, dictGet_of_missing _ _ _ h],
       fun h => by rw [homs, dictGet_of_missing _ _ _ h],
       fun h => by rw [hcomp, dictGet_of_missing _ _ _ h],
       fun h => by rw [hact, dictGet_of_missing _ _ _ h],
       fun h => by rw [hclo, dictGet_of_missing _ _ _ h],
       fun h => by rw [harc, dictGet_of_missing _ _ _ h],
       fun h => by rw [hres, dictGet_of_missing _ _ _ h],
       fun h => by rw [hfea, dictGet_of_missing _ _ _ h],
       fun h => by rw [hacc, dictGet_of_missing _ _ _ h],
       fun h => by rw [hneg, dictGet_of_missing _ _ _ h],
       fun h => by rw [henb, dictGet_of_missing _ _ _ h],
       fun h => by rw [hcyom, dictGet_of_missing _ _ _ h],
       fun h => by rw [hcti, dictGet_of_missing _ _ _ h],
       fun h => by rw [houtc, dictGet_of_missing _ _ _ h]⟩

/-- C5 witness: the amended theorem applied to the empty raw record (all
fields missing): representative numeric, boolean and list fields of both
constructors take their zero defaults. -/
theorem C5_witness :
    (create_event_from_api []).liquidity = PyVal.int 0 ∧
    (create_event_from_api []).active = PyVal.bool false ∧
    (create_event_from_api []).tags = PyVal.list [] ∧
    fxMarketEmpty.best_bid = 0 ∧
    fxMarketEmpty.volume_num = PyVal.int 0 ∧
    fxMarketEmpty.outcomes = PyVal.list [] :=
  ⟨(C5_amended_defaults.1 []).1 rfl,
   (C5_amended_defaults.1 []).2.2.2.2.2.2.2.2.2.2.2.1 rfl,
   (C5_amended_defaults.1 []).2.2.2.2.2.2.2.2.2.2.2.2.2.2.2.2.2.2.2 rfl,
   (C5_amended_defaults.2.1 [] [] fxMarketEmpty rfl).1 rfl,
   (C5_amended_defaults.2.1 [] [] fxMarketEmpty rfl).2.2.2.2.2.2.2.2.2.2.2.2.2.1 rfl,
   (C5_amended_defaults.2.1 [] [] fxMarketEmpty rfl).2.2.2.2.2.2.2.2.2.2.2.2.2.2.2.2.2.2.2.2.2.2.2.2.2.2.2.2.2.2 rfl⟩

/-! ## Generic keyed-table lemmas -/

section TableLemmas

variable {α : Type} (key : α → List Char)

theorem hasK_append (k : List Char) (t u : List α) :
    hasK key k (t ++ u) = (hasK key k t || hasK key k u) := by
  induction t with
  | nil => simp [hasK]
  | cons x xs ih => simp [hasK, ih, Bool.or_assoc]

theorem findK_none_iff (k : List Char) (t : List α) :
    findK key k t = Option.none ↔ hasK key k t = false := by
  induction t with
  | nil => simp [findK, hasK]
  | cons x xs ih =>
    by_cases hx : key x = k
    · simp [findK, hasK, hx]
    · simp [findK, hasK, hx, ih]

theorem findK_isSome_of_hasK (k : List Char) (t : List α) (h : hasK key k t = true) :
    ∃ x, findK key k t = some x := by
  cases hf : findK key k t with
  | none => rw [findK_none_iff key k t] at hf; rw [hf] at h; cases h
  | some x => exact ⟨x, rfl⟩

theorem replaceBy_hasK (r : α) (k : List Char) (t : List α) :
    hasK key k (replaceBy key r t) = hasK key k t := by
  induction t with
  | nil => rfl
  | cons x xs ih =>
    by_cases hx : key x = key r
    · simp [replaceBy, hasK, hx, if_pos hx]
    · simp [replaceBy, hasK, if_neg hx, ih]

theorem replaceBy_length (r : α) (t : List α) :
    (replaceBy key r t).length = t.length := by
  induction t with
  | nil => rfl
  | cons x xs ih =>
    by_cases hx : key x = key r
    · simp [replaceBy, if_pos hx]
    · simp [replaceBy, if_neg hx, ih]

theorem replaceBy_nodup (r : α) (t : List α) :
    nodupK key (replaceBy key r t) = nodupK key t := by
  induction t with
  | nil => rfl
  | cons x xs ih =>
    by_cases hx : key x = key r
    · simp [replaceBy, if_pos hx, nodupK, hx]
    · simp [replaceBy, if_neg hx, nodupK, ih, replaceBy_hasK]

theorem nodupK_append_one (r : α) (t : List α) :
    nodupK key (t ++ [r]) = (nodupK key t && !hasK key (key r) t) := by
  induction t with
  | nil => simp [nodupK, hasK]
  | cons x xs ih =>
    by_cases hxr : key x = key r
    · simp [List.cons_append, nodupK, hasK, ih, hasK_append, hxr]
    · have hrx : ¬ key r = key x := fun h => hxr h.symm
      simp [List.cons_append, nodupK, hasK, ih, hasK_append, hxr, hrx, Bool.and_assoc]

end TableLemmas

section TableLemmas2

variable {α : Type} (key : α → List Char)

theorem hasK_of_findK_some (k : List Char) (t : List α) (x : α)
    (h : findK key k t = some x) : hasK key k t = true := by
  cases hh : hasK key k t
  · rw [(findK_none_iff key k t).mpr hh] at h; cases h
  · rfl

theorem findK_replaceBy_self (r : α) (t : List α) (h : hasK key (key r) t = true) :
    findK key (key r) (replaceBy key r t) = some r := by
  induction t with
  | nil => cases h
  | cons x xs ih =>
    by_cases hx : key x = key r
    · simp [replaceBy, if_pos hx, findK]
    · have h2 : hasK key (key r) xs = true := by simpa [hasK, hx] using h
      simp [replaceBy, if_neg hx, findK, ih h2]

theorem findK_replaceBy_other (r : α) (k : List Char) (t : List α) (h : ¬ key r = k) :
    findK key k (replaceBy key r t) = findK key k t := by
  induction t with
  | nil => rfl
  | cons x xs ih =>
    by_cases hx : key x = key r
    · have hxk : ¬ key x = k := by rw [hx]; exact h
      simp [replaceBy, if_pos hx, findK, if_neg h, if_neg hxk]
    · by_cases hxk : key x = k
      · simp [replaceBy, if_neg hx, findK, if_pos hxk]
      · simp [replaceBy, if_neg hx, findK, if_neg hxk, ih]

theorem findK_append (k : List Char) (t u : List α) :
    findK key k (t ++ u) =
      match findK key k t with
      | some x => some x
      | Option.none => findK key k u := by
  induction t with
  | nil => rfl
  | cons x xs ih => by_cases hx : key x = k <;> simp [findK, hx, ih]

theorem findK_upsert_self (r : α) (t : List α) :
    findK key (key r) (upsertK key t r) = some r := by
  unfold upsertK
  cases hf : findK key (key r) t with
  | some x =>
    exact findK_replaceBy_self key r t (hasK_of_findK_some key (key r) t x hf)
  | none =>
    rw [findK_append, hf]
    simp [findK]

theorem findK_upsert_other (r : α) (k : List Char) (t : List α) (h : ¬ key r = k) :
    findK key k (upsertK key t r) = findK key k t := by
  unfold upsertK
  cases hf : findK key (key r) t with
  | some x => exact findK_replaceBy_other key r k t h
  | none =>
    rw [findK_append]
    cases hfk : findK key k t <;> simp [findK, if_neg h]

theorem upsertK_hasK (r : α) (k : List Char) (t : List α) :
    hasK key k (upsertK key t r) = (hasK key k t || decide (key r = k)) := by
  unfold upsertK
  cases hf : findK key (key r) t with
  | some x =>
    rw [replaceBy_hasK]
    by_cases hrk : key r = k
    · have hkt : hasK key k t = true := by
        rw [← hrk]; exact hasK_of_findK_some key (key r) t x hf
      simp [hkt]
    · simp [hrk]
  | none => rw [hasK_append]; simp [hasK]

theorem upsertK_nodup (r : α) (t : List α) (h : nodupK key t = true) :
    nodupK key (upsertK key t r) = true := by
  unfold upsertK
  cases hf : findK key (key r) t with
  | some x => rw [replaceBy_nodup]; exact h
  | none =>
    rw [nodupK_append_one, (findK_none_iff key (key r) t).mp hf]
    simp [h]

theorem exists_decomp_of_hasK (k : List Char) (t : List α) (h : hasK key k t = true) :
    ∃ pre x post, t = pre ++ x :: post ∧ key x = k ∧ hasK key k pre = false := by
  induction t with
  | nil => cases h
  | cons y ys ih =>
    by_cases hy : key y = k
    · exact ⟨[], y, ys, rfl, hy, rfl⟩
    · have h2 : hasK key k ys = true := by simpa [hasK, hy] using h
      obtain ⟨pre, x, post, het, hx, hpre⟩ := ih h2
      exact ⟨y :: pre, x, post, by rw [het]; rfl, hx, by simp [hasK, hy, hpre]⟩

theorem replaceBy_decomp (r x : α) (pre post : List α)
    (hpre : hasK key (key r) pre = false) (hx : key x = key r) :
    replaceBy key r (pre ++ x :: post) = pre ++ r :: post := by
  induction pre with
  | nil => simp [replaceBy, if_pos hx]
  | cons y ys ih =>
    have hy : ¬ key y = key r := by
      intro hh; simp [hasK, hh] at hpre
    have hys : hasK key (key r) ys = false := by simpa [hasK, hy] using hpre
    simp [replaceBy, if_neg hy, ih hys]

theorem replaceBy_of_findK_self (r : α) (t : List α)
    (h : findK key (key r) t = some r) : replaceBy key r t = t := by
  induction t with
  | nil => rfl
  | cons x xs ih =>
    by_cases hx : key x = key r
    · have hxr : x = r := by simpa [findK, hx] using h
      subst hxr; simp [replaceBy, if_pos hx]
    · have h2 : findK key (key r) xs = some r := by simpa [findK, hx] using h
      simp [replaceBy, if_neg hx, ih h2]

end TableLemmas2

section TableLemmas3

variable {α : Type} (key : α → List Char)

theorem tableRun_hasK_mono (k : List Char) (rs : List α) :
    ∀ t, hasK key k t = true → hasK key k (tableRun key t rs) = true := by
  induction rs with
  | nil => intro t h; exact h
  | cons r rest ih =>
    intro t h
    exact ih _ (by rw [upsertK_hasK]; simp [h])

theorem tableRun_hasK_written (rs : List α) :
    ∀ (t : List α) (r : α), r ∈ rs → hasK key (key r) (tableRun key t rs) = true := by
  induction rs with
  | nil => intro t r h; cases h
  | cons r0 rest ih =>
    intro t r h
    rcases List.mem_cons.mp h with h | h
    · subst h
      exact tableRun_hasK_mono key (key r) rest _ (by rw [upsertK_hasK]; simp)
    · exact ih _ r h

theorem tableRun_nodup (rs : List α) :
    ∀ t, nodupK key t = true → nodupK key (tableRun key t rs) = true := by
  induction rs with
  | nil => intro t h; exact h
  | cons r rest ih => intro t h; exact ih _ (upsertK_nodup key r t h)

theorem tableRun_findK_not_written (k : List Char) (rs : List α)
    (h : ∀ r ∈ rs, ¬ key r = k) :
    ∀ t, findK key k (tableRun key t rs) = findK key k t := by
  induction rs with
  | nil => intro t; rfl
  | cons r rest ih =>
    intro t
    have step : findK key k (tableRun key (upsertK key t r) rest) = findK key k (upsertK key t r) :=
      ih (fun r2 h2 => h r2 (List.mem_cons_of_mem r h2)) (upsertK key t r)
    calc findK key k (tableRun key t (r :: rest))
        = findK key k (upsertK key t r) := step
      _ = findK key k t := findK_upsert_other key r k t (h r (List.mem_cons_self r rest))

theorem runT_fst (rs : List α) :
    ∀ t, (runT key t rs).1 = tableRun key t rs := by
  induction rs with
  | nil => intro t; rfl
  | cons r rest ih =>
    intro t
    simp only [runT, tableRun, upsertK]
    cases hf : findK key (key r) t <;> simp [ih]

theorem runT_total (rs : List α) :
    ∀ t, (runT key t rs).2.1 + (runT key t rs).2.2 = rs.length := by
  induction rs with
  | nil => intro t; rfl
  | cons r rest ih =>
    intro t
    simp only [runT]
    cases hf : findK key (key r) t
    · have := ih (t ++ [r])
      simp only [List.length_cons]
      omega
    · have := ih (replaceBy key r t)
      simp only [List.length_cons]
      omega

end TableLemmas3

section TableLemmas4

variable {α : Type} (key : α → List Char)

theorem runT_all_present (rs : List α) :
    ∀ t, (∀ r ∈ rs, hasK key (key r) t = true) →
      runT key t rs = (tableRun key t rs, 0, rs.length) := by
  induction rs with
  | nil => intro t _; rfl
  | cons r rest ih =>
    intro t h
    have hr : hasK key (key r) t = true := h r (List.mem_cons_self r rest)
    obtain ⟨x, hfx⟩ := findK_isSome_of_hasK key (key r) t hr
    have hrest : ∀ r2 ∈ rest, hasK key (key r2) (replaceBy key r t) = true := by
      intro r2 h2
      rw [replaceBy_hasK]
      exact h r2 (List.mem_cons_of_mem r h2)
    simp only [runT, tableRun, upsertK, hfx, ih (replaceBy key r t) hrest, List.length_cons]

theorem runT_cons_none (r : α) (rs : List α) (t : List α)
    (h : findK key (key r) t = Option.none) :
    runT key t (r :: rs) =
      ((runT key (t ++ [r]) rs).1, (runT key (t ++ [r]) rs).2.1 + 1,
       (runT key (t ++ [r]) rs).2.2) := by
  simp only [runT, h]

theorem runT_cons_some (r : α) (rs : List α) (t : List α) (x : α)
    (h : findK key (key r) t = some x) :
    runT key t (r :: rs) =
      ((runT key (replaceBy key r t) rs).1, (runT key (replaceBy key r t) rs).2.1,
       (runT key (replaceBy key r t) rs).2.2 + 1) := by
  simp only [runT, h]

theorem runT_len (rs : List α) :
    ∀ t, (runT key t rs).1.length = t.length + (runT key t rs).2.1 := by
  induction rs with
  | nil => intro t; rfl
  | cons r rest ih =>
    intro t
    cases hf : findK key (key r) t
    · rw [runT_cons_none key r rest t hf]
      dsimp only
      have := ih (t ++ [r])
      simp only [List.length_append, List.length_cons, List.length_nil] at this
      omega
    · rw [runT_cons_some key r rest t _ hf]
      dsimp only
      have := ih (replaceBy key r t)
      rw [replaceBy_length] at this
      omega

theorem runT_append (rs1 rs2 : List α) :
    ∀ t, (runT key t (rs1 ++ rs2)).1 = (runT key (runT key t rs1).1 rs2).1 ∧
      (runT key t (rs1 ++ rs2)).2.1 =
        (runT key t rs1).2.1 + (runT key (runT key t rs1).1 rs2).2.1 ∧
      (runT key t (rs1 ++ rs2)).2.2 =
        (runT key t rs1).2.2 + (runT key (runT key t rs1).1 rs2).2.2 := by
  induction rs1 with
  | nil => intro t; refine ⟨rfl, ?_, ?_⟩ <;> simp [runT]
  | cons r rest ih =>
    intro t
    rw [List.cons_append]
    cases hf : findK key (key r) t
    · rw [runT_cons_none key r (rest ++ rs2) t hf, runT_cons_none key r rest t hf]
      dsimp only
      obtain ⟨h1, h2, h3⟩ := ih (t ++ [r])
      exact ⟨h1, by omega, by omega⟩
    · rw [runT_cons_some key r (rest ++ rs2) t _ hf, runT_cons_some key r rest t _ hf]
      dsimp only
      obtain ⟨h1, h2, h3⟩ := ih (replaceBy key r t)
      exact ⟨h1, by omega, by omega⟩

end TableLemmas4

section TableLemmas5

variable {α : Type} (key : α → List Char)

theorem upsertK_eq_replace (r : α) (t : List α) (a : α)
    (h : findK key (key r) t = some a) : upsertK key t r = replaceBy key r t := by
  unfold upsertK; rw [h]

theorem upsertK_eq_append (r : α) (t : List α)
    (h : findK key (key r) t = Option.none) : upsertK key t r = t ++ [r] := by
  unfold upsertK; rw [h]

theorem eqExceptAt_hasK (k k2 : List Char) (tA tB : List α)
    (h : EqExceptAt key k tA tB) : hasK key k2 tA = hasK key k2 tB := by
  obtain ⟨pre, x, y, post, hA, hB, hx, hy, hpre⟩ := h
  subst hA; subst hB
  simp [hasK_append, hasK, hx, hy]

theorem replaceBy_append (r : α) (l1 l2 : List α) :
    replaceBy key r (l1 ++ l2) =
      if hasK key (key r) l1 then replaceBy key r l1 ++ l2
      else l1 ++ replaceBy key r l2 := by
  induction l1 with
  | nil => simp [hasK]
  | cons x xs ih =>
    by_cases hx : key x = key r
    · simp [replaceBy, if_pos hx, hasK, hx]
    · by_cases hh : hasK key (key r) xs = true
      · simp [List.cons_append, replaceBy, if_neg hx, hasK, ih, hh, hx]
      · simp only [Bool.not_eq_true] at hh
        simp [List.cons_append, replaceBy, if_neg hx, hasK, ih, hh, hx]

theorem upsertK_eqExceptAt (k : List Char) (r : α) (tA tB : List α)
    (h : EqExceptAt key k tA tB) (hr : ¬ key r = k) :
    EqExceptAt key k (upsertK key tA r) (upsertK key tB r) := by
  obtain ⟨pre, x, y, post, hA, hB, hx, hy, hpre⟩ := h
  subst hA; subst hB
  have hxr : ¬ key x = key r := by rw [hx]; intro hh; exact hr hh.symm
  have hyr : ¬ key y = key r := by rw [hy]; intro hh; exact hr hh.symm
  have hsame : hasK key (key r) (pre ++ x :: post) = hasK key (key r) (pre ++ y :: post) := by
    simp [hasK_append, hasK, hxr, hyr]
  unfold upsertK
  cases hfA : findK key (key r) (pre ++ x :: post) with
  | some a =>
    have hhA : hasK key (key r) (pre ++ x :: post) = true :=
      hasK_of_findK_some key (key r) _ a hfA
    obtain ⟨b, hfB⟩ := findK_isSome_of_hasK key (key r) (pre ++ y :: post) (hsame ▸ hhA)
    rw [hfB]
    rw [replaceBy_append, replaceBy_append]
    by_cases hp : hasK key (key r) pre = true
    · rw [if_pos hp, if_pos hp]
      exact ⟨replaceBy key r pre, x, y, post, rfl, rfl, hx, hy,
        by rw [replaceBy_hasK]; exact hpre⟩
    · simp only [Bool.not_eq_true] at hp
      rw [if_neg (by simp [hp]), if_neg (by simp [hp])]
      simp only [replaceBy, if_neg hxr, if_neg hyr]
      exact ⟨pre, x, y, replaceBy key r post, rfl, rfl, hx, hy, hpre⟩
  | none =>
    have hfB : findK key (key r) (pre ++ y :: post) = Option.none := by
      rw [findK_none_iff] at hfA ⊢
      rw [← hsame]; exact hfA
    rw [hfB]
    exact ⟨pre, x, y, post ++ [r], by simp, by simp, hx, hy, hpre⟩

theorem tableRun_eqExceptAt (k : List Char) (rs : List α) :
    ∀ tA tB, EqExceptAt key k tA tB → (∃ r ∈ rs, key r = k) →
      tableRun key tA rs = tableRun key tB rs := by
  induction rs with
  | nil =>
    intro tA tB _ hex
    obtain ⟨r, hr, _⟩ := hex
    cases hr
  | cons r0 rest ih =>
    intro tA tB h hex
    by_cases hr0 : key r0 = k
    · obtain ⟨pre, x, y, post, hA, hB, hx, hy, hpre⟩ := h
      subst hA; subst hB
      have hup : upsertK key (pre ++ x :: post) r0 = upsertK key (pre ++ y :: post) r0 := by
        unfold upsertK
        have hhx : hasK key (key r0) (pre ++ x :: post) = true := by
          simp [hasK_append, hasK, hx, hr0]
        have hhy : hasK key (key r0) (pre ++ y :: post) = true := by
          simp [hasK_append, hasK, hy, hr0]
        obtain ⟨a, hfa⟩ := findK_isSome_of_hasK key (key r0) _ hhx
        obtain ⟨b, hfb⟩ := findK_isSome_of_hasK key (key r0) _ hhy
        rw [hfa, hfb]
        have hpre0 : hasK key (key r0) pre = false := by rw [hr0]; exact hpre
        rw [replaceBy_decomp key r0 x pre post hpre0 (by rw [hx, hr0]),
          replaceBy_decomp key r0 y pre post hpre0 (by rw [hy, hr0])]
      show tableRun key (upsertK key (pre ++ x :: post) r0) rest =
        tableRun key (upsertK key (pre ++ y :: post) r0) rest
      rw [hup]
    · have h2 : EqExceptAt key k (upsertK key tA r0) (upsertK key tB r0) :=
        upsertK_eqExceptAt key k r0 tA tB h hr0
      have hex2 : ∃ r ∈ rest, key r = k := by
        rcases hex with ⟨r, hr, hk⟩
        rcases List.mem_cons.mp hr with hr | hr
        · exact absurd (hr ▸ hk) hr0
        · exact ⟨r, hr, hk⟩
      exact ih _ _ h2 hex2

theorem tableRun_idem (rs : List α) :
    ∀ t, nodupK key t = true →
      tableRun key (tableRun key t rs) rs = tableRun key t rs := by
  induction rs with
  | nil => intro t _; rfl
  | cons r rest ih =>
    intro t wf
    have wf2 : nodupK key (upsertK key t r) = true := upsertK_nodup key r t wf
    have hpres : hasK key (key r) (tableRun key (upsertK key t r) rest) = true :=
      tableRun_hasK_mono key (key r) rest (upsertK key t r) (by rw [upsertK_hasK]; simp)
    show tableRun key
      (upsertK key (tableRun key (upsertK key t r) rest) r) rest =
      tableRun key (upsertK key t r) rest
    by_cases hcase : ∃ r2 ∈ rest, key r2 = key r
    · obtain ⟨a, hfa⟩ := findK_isSome_of_hasK key (key r) _ hpres
      obtain ⟨pre, x, post, hdec, hx, hpre⟩ := exists_decomp_of_hasK key (key r) _ hpres
      have hup : upsertK key (tableRun key (upsertK key t r) rest) r =
          pre ++ r :: post := by
        rw [upsertK_eq_replace key r _ a hfa, hdec]
        exact replaceBy_decomp key r x pre post hpre hx
      have heq : EqExceptAt key (key r)
          (upsertK key (tableRun key (upsertK key t r) rest) r)
          (tableRun key (upsertK key t r) rest) := by
        rw [hup, hdec]
        exact ⟨pre, r, x, post, rfl, rfl, rfl, hx, hpre⟩
      rw [tableRun_eqExceptAt key (key r) rest _ _ heq hcase]
      exact ih (upsertK key t r) wf2
    · push_neg at hcase
      have hnw : ∀ r2 ∈ rest, ¬ key r2 = key r := hcase
      have hfind : findK key (key r) (tableRun key (upsertK key t r) rest) =
          findK key (key r) (upsertK key t r) :=
        tableRun_findK_not_written key (key r) rest hnw (upsertK key t r)
      have hself : findK key (key r) (upsertK key t r) = some r := findK_upsert_self key r t
      have hup : upsertK key (tableRun key (upsertK key t r) rest) r =
          tableRun key (upsertK key t r) rest := by
        rw [upsertK_eq_replace key r _ r (hfind.trans hself)]
        exact replaceBy_of_findK_self key r _ (hfind.trans hself)
      rw [hup]
      exact ih (upsertK key t r) wf2

theorem runT_idem (rs : List α) (t : List α) (wf : nodupK key t = true) :
    runT key (tableRun key t rs) rs = (tableRun key t rs, 0, rs.length) := by
  have hall : ∀ r ∈ rs, hasK key (key r) (tableRun key t rs) = true :=
    fun r hr => tableRun_hasK_written key rs t r hr
  rw [runT_all_present key rs (tableRun key t rs) hall, tableRun_idem key rs t wf]

end TableLemmas5

/-! ## Write-sequence correspondence -/

theorem evWrites_append (ws1 ws2 : List Write) :
    evWrites (ws1 ++ ws2) = evWrites ws1 ++ evWrites ws2 := by
  induction ws1 with
  | nil => rfl
  | cons w ws ih => cases w <;> simp [evWrites, ih]

theorem mkWrites_append (ws1 ws2 : List Write) :
    mkWrites (ws1 ++ ws2) = mkWrites ws1 ++ mkWrites ws2 := by
  induction ws1 with
  | nil => rfl
  | cons w ws ih => cases w <;> simp [mkWrites, ih]

theorem applySplit_nil (db : DB) (c : Counts) : applySplit db c [] = (db, c) := by
  simp [applySplit, runT, evWrites, mkWrites]

theorem applySplit_mk_some (db : DB) (c : Counts) (fm : Market) (ws : List Write) (m0 : Market)
    (hf : findK Market.id fm.id db.markets = some m0) :
    applySplit db c (Write.mk fm :: ws) =
      applySplit ⟨db.events, replaceBy Market.id fm db.markets⟩
        ⟨c.events_added, c.events_updated, c.markets_added, c.markets_updated + 1⟩ ws := by
  unfold applySplit
  simp only [evWrites, mkWrites]
  rw [runT_cons_some Market.id fm (mkWrites ws) db.markets m0 hf]
  dsimp only
  simp only [Prod.mk.injEq, DB.mk.injEq, Counts.mk.injEq, true_and, and_true]
  omega

theorem applySplit_mk_none (db : DB) (c : Counts) (fm : Market) (ws : List Write)
    (hf : findK Market.id fm.id db.markets = Option.none) :
    applySplit db c (Write.mk fm :: ws) =
      applySplit ⟨db.events, db.markets ++ [fm]⟩
        ⟨c.events_added, c.events_updated, c.markets_added + 1, c.markets_updated⟩ ws := by
  unfold applySplit
  simp only [evWrites, mkWrites]
  rw [runT_cons_none Market.id fm (mkWrites ws) db.markets hf]
  dsimp only
  simp only [Prod.mk.injEq, DB.mk.injEq, Counts.mk.injEq, true_and, and_true]
  omega

theorem applySplit_ev_some (db : DB) (c : Counts) (e : Event) (ws : List Write) (e0 : Event)
    (hf : findK Event.id e.id db.events = some e0) :
    applySplit db c (Write.ev e :: ws) =
      applySplit ⟨replaceBy Event.id e db.events, db.markets⟩
        ⟨c.events_added, c.events_updated + 1, c.markets_added, c.markets_updated⟩ ws := by
  unfold applySplit
  simp only [evWrites, mkWrites]
  rw [runT_cons_some Event.id e (evWrites ws) db.events e0 hf]
  dsimp only
  simp only [Prod.mk.injEq, DB.mk.injEq, Counts.mk.injEq, true_and, and_true]
  omega

theorem applySplit_ev_none (db : DB) (c : Counts) (e : Event) (ws : List Write)
    (hf : findK Event.id e.id db.events = Option.none) :
    applySplit db c (Write.ev e :: ws) =
      applySplit ⟨db.events ++ [e], db.markets⟩
        ⟨c.events_added + 1, c.events_updated, c.markets_added, c.markets_updated⟩ ws := by
  unfold applySplit
  simp only [evWrites, mkWrites]
  rw [runT_cons_none Event.id e (evWrites ws) db.events hf]
  dsimp only
  simp only [Prod.mk.injEq, DB.mk.injEq, Counts.mk.injEq, true_and, and_true]
  omega

theorem applySplit_append (db : DB) (c : Counts) (ws1 ws2 : List Write) :
    applySplit db c (ws1 ++ ws2) =
      applySplit (applySplit db c ws1).1 (applySplit db c ws1).2 ws2 := by
  unfold applySplit
  simp only [evWrites_append, mkWrites_append]
  obtain ⟨he1, he2, he3⟩ := runT_append Event.id (evWrites ws1) (evWrites ws2) db.events
  obtain ⟨hm1, hm2, hm3⟩ := runT_append Market.id (mkWrites ws1) (mkWrites ws2) db.markets
  simp only [Prod.mk.injEq, DB.mk.injEq, Counts.mk.injEq]
  refine ⟨⟨he1, hm1⟩, ?_, ?_, ?_, ?_⟩ <;> omega

theorem processMarkets_corr (event_id : List Char) (ms : List PyVal) :
    ∀ (db : DB) (c : Counts),
      processMarkets event_id db c ms =
        match buildMarketWrites event_id ms with
        | Except.error e => Except.error e
        | Except.ok ws => Except.ok (applySplit db c ws) := by
  induction ms with
  | nil =>
    intro db c
    simp [processMarkets, buildMarketWrites, applySplit_nil]
  | cons v rest ih =>
    intro db c
    cases v with
    | dict mdata =>
      cases hc : create_market_from_api mdata event_id with
      | error e =>
        cases hf : findK Market.id (pyStr (dictGetN mdata kId)) db.markets with
        | some m0 => simp [processMarkets, buildMarketWrites, hc, hf]
        | none => simp [processMarkets, buildMarketWrites, hc, hf]
      | ok fm =>
        have hid : pyStr (dictGetN mdata kId) = fm.id :=
          ((create_market_ok_shape mdata event_id fm hc).1).symm
        cases hb : buildMarketWrites event_id rest with
        | error e =>
          cases hf : findK Market.id (pyStr (dictGetN mdata kId)) db.markets with
          | some m0 => simp [processMarkets, buildMarketWrites, hc, hf, hb, ih]
          | none => simp [processMarkets, buildMarketWrites, hc, hf, hb, ih]
        | ok ws =>
          cases hf : findK Market.id (pyStr (dictGetN mdata kId)) db.markets with
          | some m0 =>
            have hf2 : findK Market.id fm.id db.markets = some m0 := hid ▸ hf
            simp only [processMarkets, buildMarketWrites, hc, hf, hb, ih]
            rw [applySplit_mk_some db c fm ws m0 hf2]
          | none =>
            have hf2 : findK Market.id fm.id db.markets = Option.none := hid ▸ hf
            simp only [processMarkets, buildMarketWrites, hc, hf, hb, ih]
            rw [applySplit_mk_none db c fm ws hf2]
    | none => simp [processMarkets, buildMarketWrites]
    | bool b => simp [processMarkets, buildMarketWrites]
    | int n => simp [processMarkets, buildMarketWrites]
    | str s => simp [processMarkets, buildMarketWrites]
    | list xs => simp [processMarkets, buildMarketWrites]

theorem processEvents_corr (evs : List PyVal) :
    ∀ (db : DB) (c : Counts),
      processEvents db c evs =
        match buildWrites evs with
        | Except.error e => Except.error e
        | Except.ok ws => Except.ok (applySplit db c ws) := by
  induction evs with
  | nil =>
    intro db c
    simp [processEvents, buildWrites, applySplit_nil]
  | cons v rest ih =>
    intro db c
    cases v with
    | dict edata =>
      cases hiter : iterMarketsVal (dictGet edata kMarkets (PyVal.list [])) with
      | error e =>
        cases hf : findK Event.id (create_event_from_api edata).id db.events with
        | some e0 => simp [processEvents, buildWrites, hiter, hf]
        | none => simp [processEvents, buildWrites, hiter, hf]
      | ok mvs =>
        cases hb1 : buildMarketWrites (create_event_from_api edata).id mvs with
        | error e =>
          cases hf : findK Event.id (create_event_from_api edata).id db.events with
          | some e0 =>
            simp [processEvents, buildWrites, hiter, hf, hb1, processMarkets_corr]
          | none =>
            simp [processEvents, buildWrites, hiter, hf, hb1, processMarkets_corr]
        | ok mws =>
          cases hb2 : buildWrites rest with
          | error e =>
            cases hf : findK Event.id (create_event_from_api edata).id db.events with
            | some e0 =>
              simp [processEvents, buildWrites, hiter, hf, hb1, hb2, processMarkets_corr, ih]
            | none =>
              simp [processEvents, buildWrites, hiter, hf, hb1, hb2, processMarkets_corr, ih]
          | ok ws =>
            cases hf : findK Event.id (create_event_from_api edata).id db.events with
            | some e0 =>
              simp only [processEvents, buildWrites, hiter, hf, hb1, hb2,
                processMarkets_corr, ih]
              rw [applySplit_ev_some db c (create_event_from_api edata) (mws ++ ws) e0 hf,
                applySplit_append]
            | none =>
              simp only [processEvents, buildWrites, hiter, hf, hb1, hb2,
                processMarkets_corr, ih]
              rw [applySplit_ev_none db c (create_event_from_api edata) (mws ++ ws) hf,
                applySplit_append]
    | none => simp [processEvents, buildWrites]
    | bool b => simp [processEvents, buildWrites]
    | int n => simp [processEvents, buildWrites]
    | str s => simp [processEvents, buildWrites]
    | list xs => simp [processEvents, buildWrites]

/-! ## Reconciliation claims -/

/-- C2: reconciliation is idempotent.  If a batch reconciles successfully
into store `db1` with counts `c1`, then reconciling the same batch again
returns the very same store `db1` — every stored Event and Market
attribute unchanged — with zero rows added and every processed event and
market classified as an update (`events_updated` is the total number of
raw events processed on the first run, and likewise for markets).  The
`nodupK` hypotheses are the primary-key invariant of the store. -/
theorem C2_idempotent (db : DB) (evs : List PyVal) (db1 : DB) (c1 : Counts)
    (wfE : nodupK Event.id db.events = true) (wfM : nodupK Market.id db.markets = true)
    (h : populate_database db evs = Except.ok (db1, c1)) :
    populate_database db1 evs =
      Except.ok (db1, ⟨0, c1.events_added + c1.events_updated, 0,
        c1.markets_added + c1.markets_updated⟩) := by
  unfold populate_database at h ⊢
  rw [processEvents_corr] at h ⊢
  cases hb : buildWrites evs with
  | error e => rw [hb] at h; simp at h
  | ok ws =>
    rw [hb] at h
    dsimp only at h ⊢
    injection h with h
    rw [Prod.ext_iff] at h
    obtain ⟨hdbeq, hceq⟩ := h
    unfold applySplit at hdbeq hceq
    dsimp only at hdbeq hceq
    have hEv : db1.events = tableRun Event.id db.events (evWrites ws) := by
      rw [← congrArg DB.events hdbeq]
      exact runT_fst Event.id (evWrites ws) db.events
    have hMk : db1.markets = tableRun Market.id db.markets (mkWrites ws) := by
      rw [← congrArg DB.markets hdbeq]
      exact runT_fst Market.id (mkWrites ws) db.markets
    have hrunE := runT_idem Event.id (evWrites ws) db.events wfE
    have hrunM := runT_idem Market.id (mkWrites ws) db.markets wfM
    rw [← hEv] at hrunE
    rw [← hMk] at hrunM
    have hCea := congrArg Counts.events_added hceq
    have hCeu := congrArg Counts.events_updated hceq
    have hCma := congrArg Counts.markets_added hceq
    have hCmu := congrArg Counts.markets_updated hceq
    dsimp only at hCea hCeu hCma hCmu
    have htotE := runT_total Event.id (evWrites ws) db.events
    have htotM := runT_total Market.id (mkWrites ws) db.markets
    unfold applySplit
    rw [hrunE, hrunM]
    dsimp only
    simp only [Except.ok.injEq, Prod.mk.injEq, Counts.mk.injEq, true_and, and_true]
    constructor <;> omega

theorem buildMarketWrites_writes (eid : List Char) (ms : List PyVal) :
    ∀ ws, buildMarketWrites eid ms = Except.ok ws →
      evWrites ws = [] ∧ (mkWrites ws).length = ms.length := by
  induction ms with
  | nil =>
    intro ws h
    injection h with h
    subst h
    exact ⟨rfl, rfl⟩
  | cons v rest ih =>
    intro ws h
    cases v with
    | dict m =>
      cases hc : create_market_from_api m eid with
      | error e => simp only [buildMarketWrites, hc] at h; exact Except.noConfusion h
      | ok fm =>
        cases hb : buildMarketWrites eid rest with
        | error e => simp only [buildMarketWrites, hc, hb] at h; exact Except.noConfusion h
        | ok ws2 =>
          simp only [buildMarketWrites, hc, hb] at h
          injection h with h
          subst h
          obtain ⟨h1, h2⟩ := ih ws2 hb
          exact ⟨h1, by simp [mkWrites, h2]⟩
    | none => simp only [buildMarketWrites] at h; exact Except.noConfusion h
    | bool b => simp only [buildMarketWrites] at h; exact Except.noConfusion h
    | int n => simp only [buildMarketWrites] at h; exact Except.noConfusion h
    | str s => simp only [buildMarketWrites] at h; exact Except.noConfusion h
    | list xs => simp only [buildMarketWrites] at h; exact Except.noConfusion h

theorem buildMarketWrites_ok_create (eid : List Char) (ms : List PyVal) :
    ∀ ws, buildMarketWrites eid ms = Except.ok ws →
      ∀ m : RawDict, PyVal.dict m ∈ ms →
        ∃ fm, create_market_from_api m eid = Except.ok fm := by
  induction ms with
  | nil => intro ws _ m hm; cases hm
  | cons v rest ih =>
    intro ws h m hm
    cases v with
    | dict m0 =>
      cases hc : create_market_from_api m0 eid with
      | error e => simp only [buildMarketWrites, hc] at h; exact Except.noConfusion h
      | ok fm =>
        cases hb : buildMarketWrites eid rest with
        | error e => simp only [buildMarketWrites, hc, hb] at h; exact Except.noConfusion h
        | ok ws2 =>
          rcases List.mem_cons.mp hm with hm | hm
          · have hmm : m = m0 := by
              injection hm
            subst hmm
            exact ⟨fm, hc⟩
          · exact ih ws2 hb m hm
    | none => simp only [buildMarketWrites] at h; exact Except.noConfusion h
    | bool b => simp only [buildMarketWrites] at h; exact Except.noConfusion h
    | int n => simp only [buildMarketWrites] at h; exact Except.noConfusion h
    | str s => simp only [buildMarketWrites] at h; exact Except.noConfusion h
    | list xs => simp only [buildMarketWrites] at h; exact Except.noConfusion h

theorem buildMarketWrites_append (eid : List Char) (l1 l2 : List PyVal) :
    buildMarketWrites eid (l1 ++ l2) =
      match buildMarketWrites eid l1 with
      | Except.error e => Except.error e
      | Except.ok w1 =>
        match buildMarketWrites eid l2 with
        | Except.error e => Except.error e
        | Except.ok w2 => Except.ok (w1 ++ w2) := by
  induction l1 with
  | nil => cases hb : buildMarketWrites eid l2 <;> simp [buildMarketWrites, hb]
  | cons v rest ih =>
    cases v with
    | dict m =>
      cases hc : create_market_from_api m eid with
      | error e => simp [buildMarketWrites, hc]
      | ok fm =>
        cases hb : buildMarketWrites eid rest with
        | error e => simp [buildMarketWrites, hc, hb, ih]
        | ok w1 =>
          cases hb2 : buildMarketWrites eid l2 with
          | error e => simp [buildMarketWrites, hc, hb, hb2, ih]
          | ok w2 => simp [buildMarketWrites, hc, hb, hb2, ih]
    | none => simp [buildMarketWrites]
    | bool b => simp [buildMarketWrites]
    | int n => simp [buildMarketWrites]
    | str s => simp [buildMarketWrites]
    | list xs => simp [buildMarketWrites]

theorem buildMarketWrites_mem (eid : List Char) (ms : List PyVal) :
    ∀ ws, buildMarketWrites eid ms = Except.ok ws →
      ∀ fm ∈ mkWrites ws, ∃ m : RawDict, PyVal.dict m ∈ ms ∧
        create_market_from_api m eid = Except.ok fm := by
  induction ms with
  | nil =>
    intro ws h fm hfm
    injection h with h
    subst h
    cases hfm
  | cons v rest ih =>
    intro ws h fm hfm
    cases v with
    | dict m0 =>
      cases hc : create_market_from_api m0 eid with
      | error e => simp only [buildMarketWrites, hc] at h; exact Except.noConfusion h
      | ok fm0 =>
        cases hb : buildMarketWrites eid rest with
        | error e => simp only [buildMarketWrites, hc, hb] at h; exact Except.noConfusion h
        | ok ws2 =>
          simp only [buildMarketWrites, hc, hb] at h
          injection h with h
          subst h
          rcases List.mem_cons.mp hfm with hfm | hfm
          · subst hfm
            exact ⟨m0, List.mem_cons_self _ _, hc⟩
          · obtain ⟨m2, hm2, hc2⟩ := ih ws2 hb fm hfm
            exact ⟨m2, List.mem_cons_of_mem _ hm2, hc2⟩
    | none => simp only [buildMarketWrites] at h; exact Except.noConfusion h
    | bool b => simp only [buildMarketWrites] at h; exact Except.noConfusion h
    | int n => simp only [buildMarketWrites] at h; exact Except.noConfusion h
    | str s => simp only [buildMarketWrites] at h; exact Except.noConfusion h
    | list xs => simp only [buildMarketWrites] at h; exact Except.noConfusion h

theorem buildWrites_ok_event (evs : List PyVal) :
    ∀ ws, buildWrites evs = Except.ok ws →
      ∀ ev : RawDict, PyVal.dict ev ∈ evs →
        ∃ mvs mws, iterMarketsVal (dictGet ev kMarkets (PyVal.list [])) = Except.ok mvs ∧
          buildMarketWrites (create_event_from_api ev).id mvs = Except.ok mws := by
  induction evs with
  | nil => intro ws _ ev hev; cases hev
  | cons v rest ih =>
    intro ws h ev hev
    cases v with
    | dict edata =>
      cases hiter : iterMarketsVal (dictGet edata kMarkets (PyVal.list [])) with
      | error e => simp only [buildWrites, hiter] at h; exact Except.noConfusion h
      | ok mvs =>
        cases hbm : buildMarketWrites (create_event_from_api edata).id mvs with
        | error e => simp only [buildWrites, hiter, hbm] at h; exact Except.noConfusion h
        | ok mws =>
          cases hb : buildWrites rest with
          | error e => simp only [buildWrites, hiter, hbm, hb] at h; exact Except.noConfusion h
          | ok ws2 =>
            rcases List.mem_cons.mp hev with hev | hev
            · have hee : ev = edata := by injection hev
              subst hee
              exact ⟨mvs, mws, hiter, hbm⟩
            · exact ih ws2 hb ev hev
    | none => simp only [buildWrites] at h; exact Except.noConfusion h
    | bool b => simp only [buildWrites] at h; exact Except.noConfusion h
    | int n => simp only [buildWrites] at h; exact Except.noConfusion h
    | str s => simp only [buildWrites] at h; exact Except.noConfusion h
    | list xs => simp only [buildWrites] at h; exact Except.noConfusion h

theorem tableRun_append {α : Type} (key : α → List Char) (a b : List α) :
    ∀ t, tableRun key t (a ++ b) = tableRun key (tableRun key t a) b := by
  induction a with
  | nil => intro t; rfl
  | cons r rs ih => intro t; exact ih (upsertK key t r)

/-- C2 witness: the idempotence theorem applied to the spec scenario: an
empty store reconciled with one event holding one market, then reconciled
again — the second run returns the same store and reports one event and
one market updated, none added. -/
theorem C2_witness :
    populate_database fxDb1 fxEvents = Except.ok (fxDb1, ⟨0, 1, 0, 1⟩) :=
  C2_idempotent fxDb0 fxEvents fxDb1 ⟨1, 0, 1, 0⟩ rfl rfl rfl

/-- C4: reconciling a single raw event whose `markets` entry is a list of
N records upserts exactly one event row and the N market records:
`eventsAdded + eventsUpdated = 1`, `marketsAdded + marketsUpdated = N`,
and each table grows by exactly the added count (an event with zero
markets is still upserted, the N = 0 instance). -/
theorem C4_counts (db : DB) (ev : RawDict) (ms : List PyVal) (db2 : DB) (c : Counts)
    (hms : dictGet ev kMarkets (PyVal.list []) = PyVal.list ms)
    (h : populate_database db [PyVal.dict ev] = Except.ok (db2, c)) :
    c.events_added + c.events_updated = 1 ∧
    c.markets_added + c.markets_updated = ms.length ∧
    db2.events.length = db.events.length + c.events_added ∧
    db2.markets.length = db.markets.length + c.markets_added := by
  unfold populate_database at h
  rw [processEvents_corr] at h
  cases hb : buildWrites [PyVal.dict ev] with
  | error e => rw [hb] at h; exact Except.noConfusion h
  | ok ws =>
    rw [hb] at h
    dsimp only at h
    injection h with h
    have hiter : iterMarketsVal (dictGet ev kMarkets (PyVal.list [])) = Except.ok ms := by
      rw [hms]; rfl
    cases hbm : buildMarketWrites (create_event_from_api ev).id ms with
    | error e =>
      rw [show buildWrites [PyVal.dict ev] = Except.error e from by
        simp only [buildWrites, hiter, hbm]] at hb
      exact Except.noConfusion hb
    | ok mws =>
      have hws : ws = Write.ev (create_event_from_api ev) :: (mws ++ []) := by
        rw [show buildWrites [PyVal.dict ev] =
            Except.ok (Write.ev (create_event_from_api ev) :: (mws ++ [])) from by
          simp only [buildWrites, hiter, hbm]] at hb
        injection hb with hb
        exact hb.symm
      subst hws
      obtain ⟨hev0, hlen⟩ := buildMarketWrites_writes _ ms mws hbm
      have hev1 : evWrites (Write.ev (create_event_from_api ev) :: (mws ++ [])) =
          [create_event_from_api ev] := by
        simp [evWrites, evWrites_append, hev0]
      have hmk1 : mkWrites (Write.ev (create_event_from_api ev) :: (mws ++ [])) =
          mkWrites mws := by
        simp [mkWrites, mkWrites_append]
      rw [Prod.ext_iff] at h
      obtain ⟨hdbeq, hceq⟩ := h
      subst hdbeq
      subst hceq
      unfold applySplit
      dsimp only
      rw [hev1, hmk1]
      have htE := runT_total Event.id [create_event_from_api ev] db.events
      have htM := runT_total Market.id (mkWrites mws) db.markets
      have hlE := runT_len Event.id [create_event_from_api ev] db.events
      have hlM := runT_len Market.id (mkWrites mws) db.markets
      simp only [List.length_cons, List.length_nil] at htE
      refine ⟨by omega, by omega, ?_, ?_⟩
      · rw [hlE]; omega
      · rw [hlM]; omega

/-- C4 witness: the counts theorem at the one-market scenario event and at
an event with no markets at all (which is still inserted). -/
theorem C4_witness :
    ((1 : Nat) + 0 = 1 ∧ (1 : Nat) + 0 = [PyVal.dict fxRawMarket].length ∧
      fxDb1.events.length = fxDb0.events.length + 1 ∧
      fxDb1.markets.length = fxDb0.markets.length + 1) ∧
    ((1 : Nat) + 0 = 1 ∧ (0 : Nat) + 0 = ([] : List PyVal).length ∧
      (DB.events ⟨[create_event_from_api fxRawEventNoMarkets], []⟩).length =
        fxDb0.events.length + 1 ∧
      (DB.markets ⟨[create_event_from_api fxRawEventNoMarkets], []⟩).length =
        fxDb0.markets.length + 0) :=
  ⟨C4_counts fxDb0 fxRawEvent [PyVal.dict fxRawMarket] fxDb1 ⟨1, 0, 1, 0⟩ rfl rfl,
   C4_counts fxDb0 fxRawEventNoMarkets [] ⟨[create_event_from_api fxRawEventNoMarkets], []⟩
     ⟨1, 0, 0, 0⟩ rfl rfl⟩

/-- C3: reconciliation is atomic.  If any nested market of any event in
the batch fails to map (its `create_market_from_api` raises), then
`populate_database` raises — there is no partial-success outcome — and the
store a caller observes afterwards (`commitResult`: commit on success,
rollback on failure) is exactly the store from before the call: no row
from the batch, including records mapped successfully before the failure,
is visible.  On success the whole batch is committed together at the
single `session.commit()` after every raw event has been processed. -/
theorem C3_atomic (db : DB) (events_data : List PyVal) (ev m : RawDict)
    (ms : List PyVal) (err : PyErr)
    (hev : PyVal.dict ev ∈ events_data)
    (hms : dictGet ev kMarkets (PyVal.list []) = PyVal.list ms)
    (hm : PyVal.dict m ∈ ms)
    (hbad : create_market_from_api m (pyStr (dictGetN ev kId)) = Except.error err) :
    (∃ e, populate_database db events_data = Except.error e) ∧
    commitResult db events_data = db := by
  cases hp : populate_database db events_data with
  | error e =>
    refine ⟨⟨e, rfl⟩, ?_⟩
    unfold commitResult
    rw [hp]
  | ok p =>
    exfalso
    have hp2 := hp
    unfold populate_database at hp2
    rw [processEvents_corr] at hp2
    cases hb : buildWrites events_data with
    | error e => rw [hb] at hp2; exact Except.noConfusion hp2
    | ok ws =>
      obtain ⟨mvs, mws, hiter, hbm⟩ := buildWrites_ok_event events_data ws hb ev hev
      rw [hms] at hiter
      have hmvs : mvs = ms := by
        simp only [iterMarketsVal] at hiter
        injection hiter with h2
        exact h2.symm
      rw [hmvs] at hbm
      obtain ⟨fm, hfm⟩ := buildMarketWrites_ok_create _ ms mws hbm m hm
      have hfm2 : create_market_from_api m (pyStr (dictGetN ev kId)) = Except.ok fm := hfm
      rw [hbad] at hfm2
      exact Except.noConfusion hfm2

/-- C3 witness: the atomicity theorem at a concrete batch whose second
market carries an explicit null `bestBid` (so `float(None)` raises): the
run fails and the caller-visible store is the unchanged empty store. -/
theorem C3_witness :
    (∃ e, populate_database fxDb0 [PyVal.dict fxRawEventBad] = Except.error e) ∧
    commitResult fxDb0 [PyVal.dict fxRawEventBad] = fxDb0 :=
  C3_atomic fxDb0 [PyVal.dict fxRawEventBad] fxRawEventBad fxRawMarketBad
    [PyVal.dict fxRawMarket, PyVal.dict fxRawMarketBad]
    ("TypeError: float argument must be a string or a real number, not NoneType".data)
    (List.mem_cons_self _ _) rfl
    (List.mem_cons_of_mem _ (List.mem_cons_self _ _)) rfl

/-- C9: on a successful reconciliation of a single-event batch whose
event id already has a row, the stored event row afterwards is exactly the
freshly constructed `create_event_from_api` record — a full-field replace,
not a partial patch.  Likewise, for any nested market record (that is not
overwritten by a later duplicate id in the same list), the stored market
row afterwards is exactly the freshly constructed
`create_market_from_api` record, whose `event_id` is the id of its parent
event in the current batch. -/
theorem C9_full_replace (db : DB) (ev : RawDict) (db2 : DB) (c : Counts)
    (_hfound : ∃ e0, findK Event.id (pyStr (dictGetN ev kId)) db.events = some e0)
    (h : populate_database db [PyVal.dict ev] = Except.ok (db2, c)) :
    findK Event.id (pyStr (dictGetN ev kId)) db2.events = some (create_event_from_api ev) ∧
    (∀ (l1 l2 : List PyVal) (m : RawDict),
      dictGet ev kMarkets (PyVal.list []) = PyVal.list (l1 ++ PyVal.dict m :: l2) →
      (∀ v ∈ l2, ∀ m2 : RawDict, v = PyVal.dict m2 →
        pyStr (dictGetN m2 kId) ≠ pyStr (dictGetN m kId)) →
      ∃ fm, create_market_from_api m (pyStr (dictGetN ev kId)) = Except.ok fm ∧
        fm.event_id = pyStr (dictGetN ev kId) ∧
        findK Market.id (pyStr (dictGetN m kId)) db2.markets = some fm) := by
  unfold populate_database at h
  rw [processEvents_corr] at h
  cases hb : buildWrites [PyVal.dict ev] with
  | error e => rw [hb] at h; exact Except.noConfusion h
  | ok ws =>
    rw [hb] at h
    dsimp only at h
    injection h with h
    cases hiter : iterMarketsVal (dictGet ev kMarkets (PyVal.list [])) with
    | error e =>
      rw [show buildWrites [PyVal.dict ev] = Except.error e from by
        simp only [buildWrites, hiter]] at hb
      exact Except.noConfusion hb
    | ok mvs =>
      cases hbm : buildMarketWrites (create_event_from_api ev).id mvs with
      | error e =>
        rw [show buildWrites [PyVal.dict ev] = Except.error e from by
          simp only [buildWrites, hiter, hbm]] at hb
        exact Except.noConfusion hb
      | ok mws =>
        have hws : ws = Write.ev (create_event_from_api ev) :: mws := by
          rw [show buildWrites [PyVal.dict ev] =
              Except.ok (Write.ev (create_event_from_api ev) :: mws) from by
            simp only [buildWrites, hiter, hbm, List.append_nil]] at hb
          injection hb with hb
          exact hb.symm
        subst hws
        rw [Prod.ext_iff] at h
        obtain ⟨hdbeq, hceq⟩ := h
        have hEv : db2.events =
            tableRun Event.id db.events
              (evWrites (Write.ev (create_event_from_api ev) :: mws)) := by
          rw [← congrArg DB.events hdbeq]
          exact runT_fst Event.id _ db.events
        have hMk : db2.markets = tableRun Market.id db.markets (mkWrites mws) := by
          rw [← congrArg DB.markets hdbeq]
          exact runT_fst Market.id (mkWrites mws) db.markets
        constructor
        · have hevnil : evWrites mws = [] := (buildMarketWrites_writes _ mvs mws hbm).1
          rw [hEv]
          rw [show evWrites (Write.ev (create_event_from_api ev) :: mws) =
              [create_event_from_api ev] from by simp [evWrites, hevnil]]
          exact findK_upsert_self Event.id (create_event_from_api ev) db.events
        · intro l1 l2 m hdec hno
          rw [hdec] at hiter
          have hmvs : mvs = l1 ++ PyVal.dict m :: l2 := by
            simp only [iterMarketsVal] at hiter
            injection hiter with h2
            exact h2.symm
          rw [hmvs] at hbm
          rw [buildMarketWrites_append] at hbm
          cases hb1 : buildMarketWrites (create_event_from_api ev).id l1 with
          | error e => rw [hb1] at hbm; exact Except.noConfusion hbm
          | ok w1 =>
            rw [hb1] at hbm
            cases hc : create_market_from_api m (create_event_from_api ev).id with
            | error e =>
              simp only [buildMarketWrites, hc] at hbm
              exact Except.noConfusion hbm
            | ok fm =>
              cases hb2 : buildMarketWrites (create_event_from_api ev).id l2 with
              | error e =>
                simp only [buildMarketWrites, hc, hb2] at hbm
                exact Except.noConfusion hbm
              | ok w2 =>
                simp only [buildMarketWrites, hc, hb2] at hbm
                injection hbm with hbm
                have hfmid : fm.id = pyStr (dictGetN m kId) :=
                  (create_market_ok_shape m _ fm hc).1
                have hkeys : ∀ x ∈ mkWrites w2, ¬ Market.id x = fm.id := by
                  intro x hx
                  obtain ⟨m2, hm2mem, hc2⟩ := buildMarketWrites_mem _ l2 w2 hb2 x hx
                  have hxid : x.id = pyStr (dictGetN m2 kId) :=
                    (create_market_ok_shape m2 _ x hc2).1
                  show ¬ x.id = fm.id
                  rw [hxid, hfmid]
                  exact hno (PyVal.dict m2) hm2mem m2 rfl
                refine ⟨fm, hc, (create_market_ok_shape m _ fm hc).2.1, ?_⟩
                rw [hMk, ← hbm]
                rw [show mkWrites (w1 ++ Write.mk fm :: w2) =
                    mkWrites w1 ++ fm :: mkWrites w2 from by
                  simp [mkWrites, mkWrites_append]]
                rw [← hfmid]
                rw [tableRun_append Market.id (mkWrites w1) (fm :: mkWrites w2) db.markets]
                rw [show tableRun Market.id (tableRun Market.id db.markets (mkWrites w1))
                      (fm :: mkWrites w2) =
                    tableRun Market.id
                      (upsertK Market.id (tableRun Market.id db.markets (mkWrites w1)) fm)
                      (mkWrites w2) from rfl]
                rw [tableRun_findK_not_written Market.id fm.id (mkWrites w2) hkeys]
                exact findK_upsert_self Market.id fm _

/-- C9 witness: the full-replace theorem at the scenario store that
already holds event 1 and market 10, reconciled again with the same raw
event: the stored rows equal the freshly mapped records and the market
points at its parent event. -/
theorem C9_witness :
    findK Event.id (pyStr (dictGetN fxRawEvent kId)) fxDb1.events =
      some (create_event_from_api fxRawEvent) ∧
    (∃ fm, create_market_from_api fxRawMarket (pyStr (dictGetN fxRawEvent kId)) = Except.ok fm ∧
      fm.event_id = pyStr (dictGetN fxRawEvent kId) ∧
      findK Market.id (pyStr (dictGetN fxRawMarket kId)) fxDb1.markets = some fm) :=
  ⟨(C9_full_replace fxDb1 fxRawEvent fxDb1 ⟨0, 1, 0, 1⟩ ⟨fxEvent, rfl⟩ rfl).1,
   (C9_full_replace fxDb1 fxRawEvent fxDb1 ⟨0, 1, 0, 1⟩ ⟨fxEvent, rfl⟩ rfl).2 [] []
     fxRawMarket rfl (fun v hv => (List.not_mem_nil v hv).elim)⟩

/-! ## Tag search -/

theorem events_by_tag_go_spec (kw : List Char) (limit : Nat) (evs : List Event) :
    ∀ (acc res : List Event), acc.length < limit →
      events_by_tag_go kw limit evs acc = Except.ok res →
      res.length ≤ limit ∧
      (∀ e ∈ acc, e ∈ res) ∧
      (∀ e ∈ res, e ∈ acc ∨ (e ∈ evs ∧ eventMatches kw e = true)) ∧
      (res.length < limit → ∀ e ∈ evs, eventMatches kw e = true → e ∈ res) := by
  induction evs with
  | nil =>
    intro acc res hlt h
    injection h with h
    subst h
    exact ⟨Nat.le_of_lt hlt, fun e he => he, fun e he => Or.inl he,
      fun _ e he => (List.not_mem_nil e he).elim⟩
  | cons e0 rest ih =>
    intro acc res hlt h
    by_cases ht : pyTruthy e0.tags = true
    · cases hit : iterTags e0.tags with
      | error err =>
        rw [show events_by_tag_go kw limit (e0 :: rest) acc = Except.error err from by
          simp only [events_by_tag_go, ht, if_true, hit]] at h
        exact Except.noConfusion h
      | ok ts =>
        cases hsc : scanTags kw ts with
        | error err =>
          rw [show events_by_tag_go kw limit (e0 :: rest) acc = Except.error err from by
            simp only [events_by_tag_go, ht, if_true, hit, hsc]] at h
          exact Except.noConfusion h
        | ok matched =>
          have hmatch : eventMatches kw e0 = matched := by
            simp [eventMatches, ht, hit, hsc]
          by_cases hcap : limit ≤ (if matched then acc ++ [e0] else acc).length
          · rw [show events_by_tag_go kw limit (e0 :: rest) acc =
                Except.ok (if matched then acc ++ [e0] else acc) from by
              simp only [events_by_tag_go, ht, if_true, hit, hsc]
              rw [if_pos hcap]] at h
            injection h with h
            subst h
            have hlen : (if matched then acc ++ [e0] else acc).length ≤ limit := by
              cases matched <;> simp_all <;> omega
            refine ⟨hlen, ?_, ?_, ?_⟩
            · intro e he
              cases matched <;> simp [he]
            · intro e he
              cases matched with
              | false => exact Or.inl he
              | true =>
                rcases (by simpa using he : e ∈ acc ∨ e = e0) with he2 | he2
                · exact Or.inl he2
                · subst he2
                  exact Or.inr ⟨List.mem_cons_self e rest, hmatch⟩
            · intro hres
              exact absurd hcap (Nat.not_le_of_lt hres)
          · rw [show events_by_tag_go kw limit (e0 :: rest) acc =
                events_by_tag_go kw limit rest (if matched then acc ++ [e0] else acc) from by
              simp only [events_by_tag_go, ht, if_true, hit, hsc]
              rw [if_neg hcap]] at h
            have hlt2 : (if matched then acc ++ [e0] else acc).length < limit :=
              Nat.lt_of_not_le hcap
            obtain ⟨r1, r2, r3, r4⟩ := ih _ res hlt2 h
            refine ⟨r1, ?_, ?_, ?_⟩
            · intro e he
              apply r2
              cases matched <;> simp [he]
            · intro e he
              rcases r3 e he with he2 | ⟨hef, hem⟩
              · cases matched with
                | false => exact Or.inl he2
                | true =>
                  rcases (by simpa using he2 : e ∈ acc ∨ e = e0) with he3 | he3
                  · exact Or.inl he3
                  · subst he3
                    exact Or.inr ⟨List.mem_cons_self e rest, hmatch⟩
              · exact Or.inr ⟨List.mem_cons_of_mem e0 hef, hem⟩
            · intro hres e he hem
              rcases List.mem_cons.mp he with he2 | he2
              · subst he2
                cases hmb : matched with
                | false => rw [hmb] at hmatch; rw [hmatch] at hem; cases hem
                | true =>
                  apply r2
                  rw [hmb]
                  simp
              · exact r4 hres e he2 hem
    · have ht2 : pyTruthy e0.tags = false := by
        revert ht
        cases pyTruthy e0.tags <;> simp
      have hmatch : eventMatches kw e0 = false := by
        simp [eventMatches, ht2]
      rw [show events_by_tag_go kw limit (e0 :: rest) acc =
          events_by_tag_go kw limit rest acc from by
        simp only [events_by_tag_go, ht2, Bool.false_eq_true, if_false]
        rw [if_neg (Nat.not_le_of_lt hlt)]] at h
      obtain ⟨r1, r2, r3, r4⟩ := ih acc res hlt h
      refine ⟨r1, r2, ?_, ?_⟩
      · intro e he
        rcases r3 e he with he2 | ⟨hef, hem⟩
        · exact Or.inl he2
        · exact Or.inr ⟨List.mem_cons_of_mem e0 hef, hem⟩
      · intro hres e he hem
        rcases List.mem_cons.mp he with he2 | he2
        · subst he2
          rw [hmatch] at hem
          cases hem
        · exact r4 hres e he2 hem

/-- C8: the claim as stated is false at `limit = 0`: the truncation check
`len(matching_events) >= limit` runs only after an event has been
processed, so with limit 0 the first matching future active event is
appended and returned — one event, exceeding the limit. -/
theorem C8_counterexample :
    get_events_by_tag fxDbCrypto ("crypto".data) 0 fxNow = Except.ok [fxEventCrypto] ∧
    ¬ [fxEventCrypto].length ≤ 0 := by
  exact ⟨rfl, by decide⟩

/-- C8 (amended): for every keyword and every limit ≥ 1, a successful
`get_events_by_tag` run returns at most `limit` events; every returned
event is a stored event with a future end date and `active == True` whose
tag list matches the keyword (case-insensitive substring of a dict tag's
label or slug, or of a plain-string tag, mixed forms handled without
error); and when the scan ends below the limit, every matching
future-active event is returned.  With `limit = 0` the result can hold one
event (see the counterexample).  The concrete conjuncts are the spec
scenario: the Crypto/crypto-tagged event is found by `crypto` and by
`CRYPTO` but not by `sports`, and a mixed string/object tag list works. -/
theorem C8_amended_tag_search :
    (∀ (db : DB) (kw : List Char) (limit : Nat) (now : PyDateTime) (res : List Event),
      1 ≤ limit →
      get_events_by_tag db kw limit now = Except.ok res →
      res.length ≤ limit ∧
      (∀ e ∈ res, e ∈ db.events ∧ dtAfter e.end_date now = true ∧
        isActiveTrue e = true ∧ eventMatches kw e = true) ∧
      (res.length < limit →
        ∀ e ∈ future_active_events db now, eventMatches kw e = true → e ∈ res)) ∧
    get_events_by_tag fxDbCrypto ("crypto".data) 5 fxNow = Except.ok [fxEventCrypto] ∧
    get_events_by_tag fxDbCrypto ("CRYPTO".data) 5 fxNow = Except.ok [fxEventCrypto] ∧
    get_events_by_tag fxDbCrypto ("sports".data) 5 fxNow = Except.ok [] ∧
    get_events_by_tag ⟨[fxEventMixed], []⟩ ("politics".data) 5 fxNow =
      Except.ok [fxEventMixed] ∧
    get_events_by_tag ⟨[fxEventMixed], []⟩ ("crypto".data) 5 fxNow =
      Except.ok [fxEventMixed] := by
  refine ⟨?_, rfl, rfl, rfl, rfl, rfl⟩
  intro db kw limit now res hlim h
  unfold get_events_by_tag at h
  obtain ⟨r1, _, r3, r4⟩ :=
    events_by_tag_go_spec kw limit (future_active_events db now) [] res
      (by simpa using hlim) h
  refine ⟨r1, ?_, r4⟩
  intro e he
  rcases r3 e he with he2 | ⟨hef, hem⟩
  · exact (List.not_mem_nil e he2).elim
  · unfold future_active_events at hef
    have hef2 := List.mem_filter.mp hef
    have hcond := hef2.2
    rw [Bool.and_eq_true] at hcond
    exact ⟨hef2.1, hcond.1, hcond.2, hem⟩

/-- C8 witness: the amended theorem applied at the Crypto store with
keyword `crypto` and limit 5: at most 5 results and every result is a
future, active, keyword-matching stored event. -/
theorem C8_witness :
    [fxEventCrypto].length ≤ 5 ∧
    (∀ e ∈ [fxEventCrypto], e ∈ fxDbCrypto.events ∧ dtAfter e.end_date fxNow = true ∧
      isActiveTrue e = true ∧ eventMatches ("crypto".data) e = true) :=
  ⟨(C8_amended_tag_search.1 fxDbCrypto ("crypto".data) 5 fxNow [fxEventCrypto]
      (by decide) rfl).1,
   (C8_amended_tag_search.1 fxDbCrypto ("crypto".data) 5 fxNow [fxEventCrypto]
      (by decide) rfl).2.1⟩
